import Mathlib

/-!
Verification of the grid/partitioning engine of the horton repository
(atomic grid specifications, atomic and molecular grids, Lebedev-Laikov
spheres, and the iterative stockholder / Hirshfeld-I partitioning loop)
against its natural-language specification.

The Python sources are embedded shallowly: pure functions become Lean
functions over exact arithmetic (Rat for floating point quantities, Int
for integer charges), fallible code returns Except, and in-place numpy
array updates become functions from old to new lists.  Components of the
repository that live in compiled extension modules or data files absent
from the source tree (the Lebedev-Laikov tables, RTransform/RadialGrid,
the Becke helper) are modelled from the specification, as documented on
each such definition.
-/

namespace Horton

/-- Modelled from the spec: RTransform (horton.grid.cext) is absent from
src/.  The spec relies only on the radial transform being faithfully
represented by its string encoding (which records the transform kind, its
parameters and its number of points, e.g. PowerRTransform rmin rmax npoint)
and on the number of radial points it determines.  We model the encoded
string as an opaque code string paired with the point count it carries;
RTransform.to_string and RTransform.from_string are mutually inverse in the
real code, so the persisted attribute is modelled as the transform value
itself. -/
structure RTransform where
  code : String
  npoint : Nat
deriving DecidableEq

/-- Modelled from the spec: RadialGrid (horton.grid.radial) is absent from
src/.  It maps each grid index to a radius and a radial integration weight
via the transform; its size equals the number of points of the transform.
The claims never inspect the numeric radii of a grid reconstructed from a
transform, so the radii and weights are carried as plain data. -/
structure RadialGrid where
  rtransform : RTransform
  radii : List ℚ
  rweights : List ℚ
deriving DecidableEq

/-- Size of a radial grid, determined by its transform (radial.py derives
the array sizes from the number of points of the transform). -/
def RadialGrid.size (rg : RadialGrid) : Nat :=
  rg.rtransform.npoint

/-- Modelled from the spec: reconstruction of a RadialGrid from a persisted
transform encoding, as performed by RadialGrid(rtransform) in from_hdf5.
The radii and weights are derived from the transform by fixed functions in
the real code; their values are irrelevant to the serialization claims, so
placeholder sequences of the correct length stand in for them. -/
def RadialGrid.ofRTransform (rt : RTransform) : RadialGrid :=
  ⟨rt, (List.range rt.npoint).map (fun i => (i : ℚ) + 1),
       (List.range rt.npoint).map (fun i => (i : ℚ) + 1)⟩

/-- One record of an AtomicGridSpec member list: a pseudo-number threshold,
a radial grid and a per-shell angular point count array
(atgrid.py, the triples stored in AtomicGridSpec.members). -/
structure AGRecord where
  pn : ℚ
  rgrid : RadialGrid
  nlls : List Nat
deriving DecidableEq

/-- Argument accepted for the angular count specification: either a scalar
or a sequence (atgrid.py _normalize_nlls distinguishes the two by
hasattr(nlls, iter)). -/
inductive NllsArg where
  | scalar : Nat → NllsArg
  | seq : List Nat → NllsArg
deriving DecidableEq

/-- Embedding of _normalize_nlls (atgrid.py lines 222-233): a scalar or a
single-element sequence broadcasts to every radial shell; a sequence of any
other length must match the radial grid size exactly, else ValueError. -/
def normalize_nlls : NllsArg → Nat → Except String (List Nat)
  | .scalar n, size => .ok (List.replicate size n)
  | .seq l, size =>
      if l.length = 1 then .ok (List.replicate size (l.headD 0))
      else if l.length = size then .ok l
      else .error "The size of the radial grid must match the number of elements in nlls"

/-- The members table of an AtomicGridSpec: an association list from element
number to the list of records for that element (a Python dict with
deterministic insertion order in the model; the claims only depend on
per-key lookup). -/
abbrev Members : Type :=
  List (Nat × List AGRecord)

instance exceptDecidableEq {ε α : Type} [DecidableEq ε] [DecidableEq α] :
    DecidableEq (Except ε α) := fun x y =>
  match x, y with
  | .error e, .error f =>
      if h : e = f then .isTrue (congrArg Except.error h)
      else .isFalse (fun hc => h (Except.error.inj hc))
  | .error _, .ok _ => .isFalse (fun hc => Except.noConfusion hc)
  | .ok _, .error _ => .isFalse (fun hc => Except.noConfusion hc)
  | .ok a, .ok b =>
      if h : a = b then .isTrue (congrArg Except.ok h)
      else .isFalse (fun hc => h (Except.ok.inj hc))

/-- Lookup of members.get(number): the record list stored for an element
number, if any. -/
def membersFind (ms : Members) (number : Nat) : Option (List AGRecord) :=
  (ms.find? (fun p => p.1 = number)).map (fun p => p.2)

/-- Embedding of the dict setdefault-append idiom of
_init_members_from_list: append one record to the list of an element,
creating the entry at the end of the table when absent. -/
def membersAppend (ms : Members) (number : Nat) (r : AGRecord) : Members :=
  match ms with
  | [] => [(number, [r])]
  | (n, l) :: rest =>
      if n = number then (n, l ++ [r]) :: rest
      else (n, l) :: membersAppend rest number r

/-- Ordering of records by their pseudo-number threshold, the primary key
of the Python tuple sort l.sort() in _init_members_from_list. -/
def recLE (a b : AGRecord) : Prop :=
  a.pn ≤ b.pn

instance : DecidableRel recLE := by
  intro a b
  unfold recLE
  infer_instance

instance : IsTotal AGRecord recLE :=
  ⟨fun a b => le_total a.pn b.pn⟩

instance : IsTrans AGRecord recLE :=
  ⟨fun _ _ _ hab hbc => le_trans hab hbc⟩

/-- One raw entry of the list form of an AtomicGridSpec definition:
a tuple (number, pseudo_number, rgrid, nlls). -/
structure RawMember where
  number : Nat
  pseudo_number : ℚ
  rgrid : RadialGrid
  nlls : NllsArg
deriving DecidableEq

/-- Embedding of AtomicGridSpec._init_members_from_list (atgrid.py lines
340-347): normalize each angular count array against its radial grid size,
group the records by element number, then sort each per-element list
ascending by pseudo-number threshold. -/
def init_members_from_list (raws : List RawMember) : Except String Members := do
  let grouped ← raws.foldlM
    (fun ms raw => do
      let nlls ← normalize_nlls raw.nlls raw.rgrid.size
      pure (membersAppend ms raw.number ⟨raw.pseudo_number, raw.rgrid, nlls⟩))
    ([] : Members)
  pure (grouped.map (fun p => (p.1, List.insertionSort recLE p.2)))

/-- Embedding of AtomicGridSpec._init_members_from_tuple (atgrid.py lines
333-338): one (rgrid, nlls) pair assigned to every element number from 1 to
118, each with its own element number as the stored threshold. -/
def init_members_from_tuple (rgrid : RadialGrid) (nlls : NllsArg) :
    Except String Members := do
  let nlls ← normalize_nlls nlls rgrid.size
  pure ((List.range 118).map
    (fun k => (k + 1, [⟨((k + 1 : Nat) : ℚ), rgrid, nlls⟩])))

/-- The walk of AtomicGridSpec.get over one record list: return the first
record whose stored threshold is at least the requested pseudo number. -/
def getWalk (q : ℚ) : List AGRecord → Option AGRecord
  | [] => none
  | r :: rest => if r.pn ≥ q then some r else getWalk q rest

/-- Embedding of AtomicGridSpec.get (atgrid.py lines 313-317): walk the
stored list for the element (the empty list when the element is absent) and
return the first qualifying record, else the UnsupportedElement ValueError. -/
def AGSpec.get (ms : Members) (number : Nat) (pseudo_number : ℚ) :
    Except String (RadialGrid × List Nat) :=
  match getWalk pseudo_number ((membersFind ms number).getD []) with
  | some r => .ok (r.rgrid, r.nlls)
  | none => .error "UnsupportedElement: the atomic grid specification does not support this element"

/-- Statement of the lookup policy in the words of the spec: the first
record of the stored list whose threshold is greater than or equal to the
requested pseudo number. -/
def firstQualifying (q : ℚ) (l : List AGRecord) : Option AGRecord :=
  l.find? (fun r => q ≤ r.pn)

theorem getWalk_eq_firstQualifying (q : ℚ) (l : List AGRecord) :
    getWalk q l = firstQualifying q l := by
  induction l with
  | nil => rfl
  | cons r rest ih =>
      unfold getWalk firstQualifying
      by_cases h : q ≤ r.pn
      · simp [List.find?, h, ge_iff_le]
      · simpa [List.find?, h, ge_iff_le, firstQualifying] using ih

theorem membersFind_map (f : List AGRecord → List AGRecord) (ms : Members)
    (n : Nat) :
    membersFind (ms.map (fun p => (p.1, f p.2))) n =
      (membersFind ms n).map f := by
  induction ms with
  | nil => rfl
  | cons p rest ih =>
      unfold membersFind at *
      by_cases h : p.1 = n
      · simp [List.find?_cons, h]
      · simpa [List.find?_cons, h] using ih

/-- Inversion of a successful Except bind, used to take successful runs of
the embedded constructors apart. -/
theorem except_bind_ok {α β : Type} (x : Except String α)
    (f : α → Except String β) (b : β)
    (h : (do let a ← x; f a) = .ok b) : ∃ a, x = .ok a ∧ f a = .ok b := by
  cases x with
  | error e => exact absurd h (by simp [Bind.bind, Except.bind])
  | ok a => exact ⟨a, rfl, by simpa [Bind.bind, Except.bind] using h⟩

/-- Every per-element list of a spec built by init_members_from_list is the
insertion sort of the grouped records for that element. -/
theorem init_list_membersFind (raws : List RawMember) (ms : Members)
    (h : init_members_from_list raws = .ok ms) (number : Nat) :
    ∃ grouped : Members,
      raws.foldlM
        (fun ms raw => do
          let nlls ← normalize_nlls raw.nlls raw.rgrid.size
          pure (membersAppend ms raw.number ⟨raw.pseudo_number, raw.rgrid, nlls⟩))
        ([] : Members) = .ok grouped ∧
      membersFind ms number =
        (membersFind grouped number).map (List.insertionSort recLE) := by
  unfold init_members_from_list at h
  obtain ⟨grouped, hg, hps⟩ := except_bind_ok _ _ _ h
  have hms : ms = grouped.map (fun p => (p.1, List.insertionSort recLE p.2)) := by
    simpa [pure, Except.pure] using hps.symm
  exact ⟨grouped, hg, hms ▸ membersFind_map _ grouped number⟩

/-- C1. For every AtomicGridSpec built from a record list and every
(number, pseudo_number) request: the stored list for that element is sorted
ascending by pseudo-number threshold, and get walks it returning the
(radial grid, angular counts) of the first record whose threshold is at
least the requested pseudo number, failing with the UnsupportedElement
ValueError when no record qualifies (in particular when the element has no
records at all). -/
theorem agspec_get_first_qualifying_sorted (raws : List RawMember)
    (ms : Members) (h : init_members_from_list raws = .ok ms) (number : Nat)
    (q : ℚ) :
    List.Sorted recLE ((membersFind ms number).getD []) ∧
    (∀ r, firstQualifying q ((membersFind ms number).getD []) = some r →
      AGSpec.get ms number q = .ok (r.rgrid, r.nlls)) ∧
    (firstQualifying q ((membersFind ms number).getD []) = none →
      ∃ e, AGSpec.get ms number q = .error e) := by
  obtain ⟨grouped, -, hfind⟩ := init_list_membersFind raws ms h number
  refine ⟨?_, ?_, ?_⟩
  · rw [hfind]
    cases membersFind grouped number with
    | none => simp
    | some l => simpa using List.sorted_insertionSort recLE l
  · intro r hr
    unfold AGSpec.get
    rw [getWalk_eq_firstQualifying, hr]
  · intro hr
    unfold AGSpec.get
    rw [getWalk_eq_firstQualifying, hr]
    exact ⟨_, rfl⟩

/-- Concrete radial grid with two shells used by several witnesses. -/
def rgW : RadialGrid :=
  ⟨⟨"r", 2⟩, [1, 2], [3, 4]⟩

/-- Concrete record list used by the C1 witness: element 10 holds two
records, entered in descending threshold order (10 then 8). -/
def rawsW : List RawMember :=
  [⟨10, 10, rgW, .seq [6, 14]⟩, ⟨10, 8, rgW, .scalar 6⟩]

/-- Members table produced from rawsW: grouping and sorting places the
threshold-8 record first. -/
def msW : Members :=
  [(10, [⟨8, rgW, [6, 6]⟩, ⟨10, rgW, [6, 14]⟩])]

/-- Witness for C1: on the concrete spec built from rawsW, a request for
element 10 at pseudo number 9 skips the threshold-8 record and returns the
record with threshold 10. -/
theorem agspec_get_first_qualifying_sorted_witness :
    init_members_from_list rawsW = .ok msW ∧
      AGSpec.get msW 10 9 = .ok (rgW, [6, 14]) := by
  refine ⟨by decide, ?_⟩
  exact (agspec_get_first_qualifying_sorted rawsW msW (by decide) 10 9).2.1
    ⟨10, rgW, [6, 14]⟩ (by decide)

theorem find?_range_keyed (f : Nat → List AGRecord) (m n : Nat) :
    ((List.range m).map (fun k => (k + 1, f (k + 1)))).find?
        (fun p => p.1 = n) =
      if 1 ≤ n ∧ n ≤ m then some (n, f n) else none := by
  induction m with
  | zero =>
      rw [if_neg (by omega)]
      rfl
  | succ m ih =>
      rw [List.range_succ, List.map_append, List.find?_append, ih]
      by_cases hn : 1 ≤ n ∧ n ≤ m
      · rw [if_pos hn, if_pos (by omega)]
        rfl
      · rw [if_neg hn]
        by_cases he : m + 1 = n
        · subst he
          rw [if_pos (by omega)]
          simp [List.find?]
        · rw [if_neg (by omega)]
          simp [List.find?, he]

theorem membersFind_range (f : Nat → List AGRecord) (m n : Nat) :
    membersFind ((List.range m).map (fun k => (k + 1, f (k + 1)))) n =
      if 1 ≤ n ∧ n ≤ m then some (f n) else none := by
  unfold membersFind
  rw [find?_range_keyed]
  by_cases hn : 1 ≤ n ∧ n ≤ m
  · rw [if_pos hn, if_pos hn]
    rfl
  · rw [if_neg hn, if_neg hn]
    rfl

/-- C10. For an AtomicGridSpec constructed from a single (radial grid,
angular counts) tuple, get(number, pseudo_number) returns that radial grid
together with the normalized angular-count array exactly when the element
number lies in 1..118 and the requested pseudo number does not exceed the
element number (each element's single stored threshold is the element
number itself); in every other case, including pseudo_number greater than
the element number, it fails with the UnsupportedElement error. -/
theorem agspec_tuple_get (rgrid : RadialGrid) (arg : NllsArg)
    (nlls : List Nat) (ms : Members)
    (h1 : normalize_nlls arg rgrid.size = .ok nlls)
    (h2 : init_members_from_tuple rgrid arg = .ok ms) (n : Nat) (q : ℚ) :
    AGSpec.get ms n q =
      if 1 ≤ n ∧ n ≤ 118 ∧ q ≤ (n : ℚ) then .ok (rgrid, nlls)
      else .error "UnsupportedElement: the atomic grid specification does not support this element" := by
  unfold init_members_from_tuple at h2
  obtain ⟨nlls0, hn0, hps⟩ := except_bind_ok _ _ _ h2
  rw [h1] at hn0
  cases hn0
  have hms : ms = (List.range 118).map
      (fun k => (k + 1,
        (fun j : Nat => [(⟨(j : ℚ), rgrid, nlls⟩ : AGRecord)]) (k + 1))) := by
    simpa [pure, Except.pure] using hps.symm
  have hfind : membersFind ms n =
      if 1 ≤ n ∧ n ≤ 118 then some [(⟨(n : ℚ), rgrid, nlls⟩ : AGRecord)]
      else none := by
    rw [hms]
    exact membersFind_range
      (fun j : Nat => [(⟨(j : ℚ), rgrid, nlls⟩ : AGRecord)]) 118 n
  unfold AGSpec.get
  rw [hfind]
  by_cases hn : 1 ≤ n ∧ n ≤ 118
  · rw [if_pos hn]
    by_cases hq : q ≤ (n : ℚ)
    · rw [if_pos ⟨hn.1, hn.2, hq⟩]
      simp [getWalk, ge_iff_le, hq]
    · rw [if_neg (by tauto)]
      simp [getWalk, ge_iff_le, hq]
  · rw [if_neg hn, if_neg (by tauto)]
    rfl

/-- Members table of the tuple-initialized witness spec: every element 1
to 118 carries the same radial grid and the scalar angular count 6
broadcast to both shells. -/
def msT : Members :=
  (List.range 118).map
    (fun k => (k + 1, [(⟨((k + 1 : Nat) : ℚ), rgW, [6, 6]⟩ : AGRecord)]))

/-- Witness for C10: on the concrete tuple-initialized spec, element 10 is
served for pseudo number 9 but refused for pseudo number 11. -/
theorem agspec_tuple_get_witness :
    AGSpec.get msT 10 9 = .ok (rgW, [6, 6]) ∧
      AGSpec.get msT 10 11 = .error "UnsupportedElement: the atomic grid specification does not support this element" := by
  constructor
  · rw [agspec_tuple_get rgW (.scalar 6) [6, 6] msT (by decide) (by decide) 10 9,
      if_pos (by norm_num)]
  · rw [agspec_tuple_get rgW (.scalar 6) [6, 6] msT (by decide) (by decide) 10 11,
      if_neg (by norm_num)]

/-- Embedding of HirshfeldIMixin.get_interpolation_info (hirshfeld_i.py
lines 63-69): the target charge is split into its integer floor and the
fractional remainder. -/
def get_interpolation_info (target_charge : ℚ) : ℤ × ℚ :=
  let icharge := ⌊target_charge⌋
  (icharge, target_charge - icharge)

/-- Weight dictionary passed to ProatomDB.get_rho by get_proatom_rho: the
density is requested either as a single weighted ionic record or as a
weighted pair of consecutive ionic records. -/
inductive RhoRequest where
  | one : ℤ → ℚ → RhoRequest
  | two : ℤ → ℚ → ℚ → RhoRequest
deriving DecidableEq

/-- Embedding of HirshfeldIMixin.get_proatom_rho (hirshfeld_i.py lines
71-81).  Pseudo numbers of the source systems are integral, so the pseudo
number is an Int and the remaining pseudo population
pseudo_number - icharge is an Int as well; over the integers the three
source branches (pseudo_pop == 1 or x == 0, pseudo_pop > 1,
pseudo_pop <= 0) are exhaustive, so the final elif is a plain else here. -/
def get_proatom_rho (pseudo_number : ℤ) (target_charge : ℚ) :
    Except String RhoRequest :=
  let p := get_interpolation_info target_charge
  let icharge := p.1
  let x := p.2
  let pseudo_pop : ℤ := pseudo_number - icharge
  if pseudo_pop = 1 ∨ x = 0 then .ok (.one icharge (1 - x))
  else if pseudo_pop > 1 then .ok (.two icharge (1 - x) x)
  else .error "Requesting a pro-atom with a negative (pseudo) population"

/-- Embedding of HirshfeldIMixin.eval_proatom (hirshfeld_i.py lines
101-111) at one grid point: iso gives the isolated-ion density value for
each ionic charge; the output starts as the icharge density scaled by 1-x,
gains the x-scaled icharge+1 density when pseudo_pop > 1 and x is nonzero,
fails when pseudo_pop <= 0, and finally adds the 1e-100 floor. -/
def eval_proatom (pseudo_number : ℤ) (target_charge : ℚ) (iso : ℤ → ℚ) :
    Except String ℚ :=
  let p := get_interpolation_info target_charge
  let icharge := p.1
  let x := p.2
  let base := iso icharge * (1 - x)
  let pseudo_pop : ℤ := pseudo_number - icharge
  if pseudo_pop > 1 ∧ x ≠ 0 then
    .ok (base + iso (icharge + 1) * x + 1 / 10 ^ 100)
  else if pseudo_pop ≤ 0 then
    .error "Requesting a pro-atom with a negative (pseudo) population"
  else .ok (base + 1 / 10 ^ 100)

/-- Unfolded form of get_proatom_rho (definitional). -/
theorem get_proatom_rho_def (pn : ℤ) (t : ℚ) :
    get_proatom_rho pn t =
      if pn - ⌊t⌋ = 1 ∨ t - ⌊t⌋ = 0 then .ok (.one ⌊t⌋ (1 - (t - ⌊t⌋)))
      else if pn - ⌊t⌋ > 1 then
        .ok (.two ⌊t⌋ (1 - (t - ⌊t⌋)) (t - ⌊t⌋))
      else .error "Requesting a pro-atom with a negative (pseudo) population" :=
  rfl

/-- Unfolded form of eval_proatom (definitional). -/
theorem eval_proatom_def (pn : ℤ) (t : ℚ) (iso : ℤ → ℚ) :
    eval_proatom pn t iso =
      if pn - ⌊t⌋ > 1 ∧ t - ⌊t⌋ ≠ 0 then
        .ok (iso ⌊t⌋ * (1 - (t - ⌊t⌋)) + iso (⌊t⌋ + 1) * (t - ⌊t⌋) +
          1 / 10 ^ 100)
      else if pn - ⌊t⌋ ≤ 0 then
        .error "Requesting a pro-atom with a negative (pseudo) population"
      else .ok (iso ⌊t⌋ * (1 - (t - ⌊t⌋)) + 1 / 10 ^ 100) :=
  rfl

/-- Counterexample to C2 as stated: at pseudo number 1 with target charge
exactly 1 the remaining pseudo population is 1 - 1 = 0, which is
non-positive, yet get_proatom_rho does not fail with InvalidPopulation:
the x = 0 half of the first branch returns the full-weight charge-1
density request. -/
theorem get_proatom_rho_counterexample :
    get_proatom_rho 1 1 = .ok (.one 1 1) := by
  rw [get_proatom_rho_def]
  norm_num

/-- C2 (amended).  For every integral pseudo number and target charge: the
target charge splits into its integer floor q and fractional remainder
x in [0,1); get_proatom_rho fails with the InvalidPopulation ValueError
exactly when the remaining pseudo population pseudo_number - q is
non-positive AND x is nonzero (when x = 0 it returns the plain charge-q
density request regardless of the population); for x nonzero it returns
the single (1-x)-weighted charge-q request when the remaining population
equals 1, and the (1-x, x)-weighted interpolation between charges q and
q+1 when the remaining population exceeds 1.  eval_proatom, by contrast,
fails exactly when the remaining pseudo population is non-positive, and
otherwise evaluates the same linear interpolation plus the 1e-100 floor. -/
theorem hirshfeld_i_interpolation (pseudo_number : ℤ) (target_charge : ℚ)
    (iso : ℤ → ℚ) :
    (0 : ℚ) ≤ target_charge - ⌊target_charge⌋ ∧
    target_charge - ⌊target_charge⌋ < 1 ∧
    ((∃ e, get_proatom_rho pseudo_number target_charge = .error e) ↔
      (pseudo_number - ⌊target_charge⌋ ≤ 0 ∧
        target_charge - ⌊target_charge⌋ ≠ 0)) ∧
    (target_charge - ⌊target_charge⌋ = 0 →
      get_proatom_rho pseudo_number target_charge =
        .ok (.one ⌊target_charge⌋ 1)) ∧
    (target_charge - ⌊target_charge⌋ ≠ 0 →
      pseudo_number - ⌊target_charge⌋ = 1 →
      get_proatom_rho pseudo_number target_charge =
        .ok (.one ⌊target_charge⌋ (1 - (target_charge - ⌊target_charge⌋)))) ∧
    (target_charge - ⌊target_charge⌋ ≠ 0 →
      1 < pseudo_number - ⌊target_charge⌋ →
      get_proatom_rho pseudo_number target_charge =
        .ok (.two ⌊target_charge⌋ (1 - (target_charge - ⌊target_charge⌋))
          (target_charge - ⌊target_charge⌋))) ∧
    ((∃ e, eval_proatom pseudo_number target_charge iso = .error e) ↔
      pseudo_number - ⌊target_charge⌋ ≤ 0) ∧
    (target_charge - ⌊target_charge⌋ ≠ 0 →
      1 < pseudo_number - ⌊target_charge⌋ →
      eval_proatom pseudo_number target_charge iso =
        .ok ((1 - (target_charge - ⌊target_charge⌋)) * iso ⌊target_charge⌋ +
          (target_charge - ⌊target_charge⌋) * iso (⌊target_charge⌋ + 1) +
          1 / 10 ^ 100)) ∧
    (0 < pseudo_number - ⌊target_charge⌋ →
      ¬(1 < pseudo_number - ⌊target_charge⌋ ∧
        target_charge - ⌊target_charge⌋ ≠ 0) →
      eval_proatom pseudo_number target_charge iso =
        .ok ((1 - (target_charge - ⌊target_charge⌋)) * iso ⌊target_charge⌋ +
          1 / 10 ^ 100)) := by
  have hx0 : (0 : ℚ) ≤ target_charge - ⌊target_charge⌋ := by
    have := Int.fract_nonneg target_charge
    rwa [Int.fract] at this
  have hx1 : target_charge - ⌊target_charge⌋ < 1 := by
    have := Int.fract_lt_one target_charge
    rwa [Int.fract] at this
  refine ⟨hx0, hx1, ?_, ?_, ?_, ?_, ?_, ?_, ?_⟩
  · rw [get_proatom_rho_def]
    constructor
    · intro he
      obtain ⟨e, he⟩ := he
      by_cases h1 : pseudo_number - ⌊target_charge⌋ = 1 ∨
          target_charge - ⌊target_charge⌋ = 0
      · rw [if_pos h1] at he
        cases he
      · rw [if_neg h1] at he
        by_cases h2 : pseudo_number - ⌊target_charge⌋ > 1
        · rw [if_pos h2] at he
          cases he
        · push_neg at h1
          exact ⟨by omega, h1.2⟩
    · intro hpx
      obtain ⟨hp, hx⟩ := hpx
      rw [if_neg (by push_neg; exact ⟨by omega, hx⟩), if_neg (by omega)]
      exact ⟨_, rfl⟩
  · intro hx
    rw [get_proatom_rho_def, if_pos (Or.inr hx), hx]
    norm_num
  · intro hx hp
    rw [get_proatom_rho_def, if_pos (Or.inl hp)]
  · intro hx hp
    rw [get_proatom_rho_def,
      if_neg (by push_neg; exact ⟨by omega, hx⟩), if_pos hp]
  · rw [eval_proatom_def]
    constructor
    · intro he
      obtain ⟨e, he⟩ := he
      by_cases h1 : pseudo_number - ⌊target_charge⌋ > 1 ∧
          target_charge - ⌊target_charge⌋ ≠ 0
      · rw [if_pos h1] at he
        cases he
      · rw [if_neg h1] at he
        by_cases h2 : pseudo_number - ⌊target_charge⌋ ≤ 0
        · exact h2
        · rw [if_neg h2] at he
          cases he
    · intro hp
      rw [if_neg ?hcond, if_pos hp]
      · exact ⟨_, rfl⟩
      case hcond =>
        rintro ⟨h, -⟩
        omega
  · intro hx hp
    rw [eval_proatom_def, if_pos ⟨hp, hx⟩]
    exact congrArg Except.ok (by ring)
  · intro hp hno
    rw [eval_proatom_def, if_neg hno, if_neg (by omega)]
    exact congrArg Except.ok (by ring)

/-- Witness for C2: pseudo number 3 with target charge 3/2 splits into
q = 1, x = 1/2, remaining pseudo population 2, and the returned request
interpolates charges 1 and 2 with weights (1/2, 1/2). -/
theorem hirshfeld_i_interpolation_witness :
    get_proatom_rho 3 (3 / 2) = .ok (.two 1 (1 / 2) (1 / 2)) := by
  have h := (hirshfeld_i_interpolation 3 (3 / 2) (fun _ => 0)).2.2.2.2.2.1
    (by norm_num) (by norm_num)
  rw [h]
  norm_num

/-- Embedding of the control flow of
IterativeProatomMixin.do_partitioning (iterstock.py lines 76-114).  The
body of one iteration (updating the pro-atom parameters and computing the
change metric) is abstracted as the function change, giving the metric
computed at the end of iteration number counter+1; the loop increments the
counter, evaluates the metric, and leaves as soon as the metric drops
below the threshold or the counter reaches maxiter.  The returned pair is
(niter, change) as dumped into the cache at the end. -/
def do_partitioning_aux (threshold : ℚ) (maxiter : Nat) (change : Nat → ℚ)
    (counter : Nat) : Nat × ℚ :=
  if change (counter + 1) < threshold ∨ counter + 1 ≥ maxiter then
    (counter + 1, change (counter + 1))
  else do_partitioning_aux threshold maxiter change (counter + 1)
termination_by maxiter - counter
decreasing_by
  simp only [not_or, not_lt, not_le] at *
  omega

/-- The full loop starts with counter = 0 (iterstock.py line 92). -/
def do_partitioning_loop (threshold : ℚ) (maxiter : Nat)
    (change : Nat → ℚ) : Nat × ℚ :=
  do_partitioning_aux threshold maxiter change 0

theorem do_partitioning_aux_spec (threshold : ℚ) (maxiter : Nat)
    (change : Nat → ℚ) (counter : Nat) (hlt : counter < maxiter) :
    counter < (do_partitioning_aux threshold maxiter change counter).1 ∧
    (do_partitioning_aux threshold maxiter change counter).1 ≤ maxiter ∧
    (do_partitioning_aux threshold maxiter change counter).2 =
      change (do_partitioning_aux threshold maxiter change counter).1 ∧
    (∀ k, counter < k →
      k < (do_partitioning_aux threshold maxiter change counter).1 →
      ¬change k < threshold) ∧
    (change (do_partitioning_aux threshold maxiter change counter).1 <
        threshold ∨
      (do_partitioning_aux threshold maxiter change counter).1 = maxiter) := by
  rw [do_partitioning_aux]
  by_cases h : change (counter + 1) < threshold ∨ counter + 1 ≥ maxiter
  · rw [if_pos h]
    refine ⟨by omega, by omega, rfl, by omega, ?_⟩
    rcases h with h | h
    · exact Or.inl h
    · exact Or.inr (by omega)
  · rw [if_neg h]
    push_neg at h
    have ih := do_partitioning_aux_spec threshold maxiter change (counter + 1)
      (by omega)
    obtain ⟨ih1, ih2, ih3, ih4, ih5⟩ := ih
    refine ⟨by omega, ih2, ih3, ?_, ih5⟩
    intro k hk1 hk2
    by_cases hkc : k = counter + 1
    · subst hkc
      exact not_lt.mpr h.1
    · exact ih4 k (by omega) hk2
termination_by maxiter - counter
decreasing_by
  omega

/-- C3.  For every threshold and every maxiter at least 1, the iterative
partitioning loop terminates (it is a total function here) with a final
iteration count niter satisfying 1 <= niter <= maxiter; the recorded final
change metric is the metric of the last iteration performed; no earlier
iteration already satisfied the convergence test (the loop exits as soon
as the metric drops below the threshold); and on exit either the metric is
below the threshold or the counter reached maxiter, in which case the loop
stops without any error. -/
theorem do_partitioning_terminates (threshold : ℚ) (maxiter : Nat)
    (change : Nat → ℚ) (hmax : 1 ≤ maxiter) :
    1 ≤ (do_partitioning_loop threshold maxiter change).1 ∧
    (do_partitioning_loop threshold maxiter change).1 ≤ maxiter ∧
    (do_partitioning_loop threshold maxiter change).2 =
      change (do_partitioning_loop threshold maxiter change).1 ∧
    (∀ k, 1 ≤ k → k < (do_partitioning_loop threshold maxiter change).1 →
      ¬change k < threshold) ∧
    (change (do_partitioning_loop threshold maxiter change).1 < threshold ∨
      (do_partitioning_loop threshold maxiter change).1 = maxiter) := by
  unfold do_partitioning_loop
  have h := do_partitioning_aux_spec threshold maxiter change 0 (by omega)
  obtain ⟨h1, h2, h3, h4, h5⟩ := h
  exact ⟨by omega, h2, h3, fun k hk1 hk2 => h4 k (by omega) hk2, h5⟩

/-- Witness for C3 at threshold 1, maxiter 3 and a change sequence that
drops below the threshold at the second iteration: the loop reports
niter = 2 and final change 1/2. -/
theorem do_partitioning_terminates_witness :
    do_partitioning_loop 1 3 (fun k => if k ≤ 1 then 2 else 1 / 2) = (2, 1 / 2) ∧
    (do_partitioning_loop 1 3 (fun k => if k ≤ 1 then 2 else 1 / 2)).1 ≤ 3 := by
  constructor
  · rw [do_partitioning_loop, do_partitioning_aux, do_partitioning_aux]
    norm_num
  · exact (do_partitioning_terminates 1 3
      (fun k => if k ≤ 1 then 2 else 1 / 2) (by norm_num)).2.1

/-- Formal coordinate value a + b*sqrt2 + c*sqrt3 with rational
coefficients: the exact coordinates of the low-order Lebedev-Laikov points
lie in this set, and the claims need only addition and rational scaling of
coordinates, under which the set is closed. -/
structure Coord where
  a : ℚ
  b : ℚ
  c : ℚ
deriving DecidableEq

/-- Zero coordinate. -/
def Coord.zero : Coord :=
  ⟨0, 0, 0⟩

/-- Coordinate addition (componentwise on the basis 1, sqrt2, sqrt3). -/
def Coord.add (u v : Coord) : Coord :=
  ⟨u.a + v.a, u.b + v.b, u.c + v.c⟩

/-- Scaling of a coordinate by a rational number. -/
def Coord.smul (q : ℚ) (u : Coord) : Coord :=
  ⟨q * u.a, q * u.b, q * u.c⟩

/-- A Cartesian point with coordinates in the formal coordinate set. -/
def Vec3C : Type :=
  Coord × Coord × Coord

instance : DecidableEq Vec3C := by
  unfold Vec3C
  infer_instance

/-- Sum of a list of coordinates. -/
def coordSum (l : List Coord) : Coord :=
  l.foldr Coord.add Coord.zero

/-- The coordinate representing the rational number 1. -/
def cOne : Coord :=
  ⟨1, 0, 0⟩

/-- The coordinate representing -1. -/
def cNegOne : Coord :=
  ⟨-1, 0, 0⟩

/-- The coordinate representing sqrt2 / 2 (the a2 orbit magnitude). -/
def cSq2h : Coord :=
  ⟨0, 1 / 2, 0⟩

/-- The coordinate representing -sqrt2 / 2. -/
def cSq2hm : Coord :=
  ⟨0, -(1 / 2), 0⟩

/-- The coordinate representing sqrt3 / 3 (the a3 orbit magnitude). -/
def cSq3t : Coord :=
  ⟨0, 0, 1 / 3⟩

/-- The coordinate representing -sqrt3 / 3. -/
def cSq3tm : Coord :=
  ⟨0, 0, -(1 / 3)⟩

/-- The six octahedron vertices (+-1, 0, 0) and permutations: the a1 orbit
of the Lebedev-Laikov generator. -/
def orbitA1 : List Vec3C :=
  [(cOne, Coord.zero, Coord.zero), (cNegOne, Coord.zero, Coord.zero),
   (Coord.zero, cOne, Coord.zero), (Coord.zero, cNegOne, Coord.zero),
   (Coord.zero, Coord.zero, cOne), (Coord.zero, Coord.zero, cNegOne)]

/-- The twelve edge midpoints (0, +-q, +-q) and permutations with
q = sqrt2/2: the a2 orbit of the Lebedev-Laikov generator. -/
def orbitA2 : List Vec3C :=
  [(Coord.zero, cSq2h, cSq2h), (Coord.zero, cSq2h, cSq2hm),
   (Coord.zero, cSq2hm, cSq2h), (Coord.zero, cSq2hm, cSq2hm),
   (cSq2h, Coord.zero, cSq2h), (cSq2h, Coord.zero, cSq2hm),
   (cSq2hm, Coord.zero, cSq2h), (cSq2hm, Coord.zero, cSq2hm),
   (cSq2h, cSq2h, Coord.zero), (cSq2h, cSq2hm, Coord.zero),
   (cSq2hm, cSq2h, Coord.zero), (cSq2hm, cSq2hm, Coord.zero)]

/-- The eight cube vertices (+-p, +-p, +-p) with p = sqrt3/3: the a3 orbit
of the Lebedev-Laikov generator. -/
def orbitA3 : List Vec3C :=
  [(cSq3t, cSq3t, cSq3t), (cSq3t, cSq3t, cSq3tm),
   (cSq3t, cSq3tm, cSq3t), (cSq3t, cSq3tm, cSq3tm),
   (cSq3tm, cSq3t, cSq3t), (cSq3tm, cSq3t, cSq3tm),
   (cSq3tm, cSq3tm, cSq3t), (cSq3tm, cSq3tm, cSq3tm)]

/-- The 6-point Lebedev-Laikov rule: octahedron vertices with weight 1/6. -/
def ld0006 : List (Vec3C × ℚ) :=
  orbitA1.map (fun p => (p, 1 / 6))

/-- The 14-point Lebedev-Laikov rule: a1 orbit with weight 1/15 and a3
orbit with weight 3/40. -/
def ld0014 : List (Vec3C × ℚ) :=
  orbitA1.map (fun p => (p, 1 / 15)) ++ orbitA3.map (fun p => (p, 3 / 40))

/-- The 26-point Lebedev-Laikov rule: a1 orbit with weight 1/21, a2 orbit
with weight 4/105 and a3 orbit with weight 9/280. -/
def ld0026 : List (Vec3C × ℚ) :=
  orbitA1.map (fun p => (p, 1 / 21)) ++ orbitA2.map (fun p => (p, 4 / 105))
    ++ orbitA3.map (fun p => (p, 9 / 280))

/-- Modelled from the spec: lebedev_laikov_sphere (horton.grid.cext) is
absent from src/ (the generator is a compiled table of quadrature
constants).  The spec requires the generator, for each supported
point-count, to produce unit-sphere points with normalized weights; the
model carries the exact rational tables of the three lowest supported
orders (6, 14 and 26 points), whose quadrature weights are exactly
rational, with coordinates represented exactly in the formal
sqrt2/sqrt3 coordinate set. -/
def lebedev_laikov_sphere (n : Nat) : Option (List (Vec3C × ℚ)) :=
  if n = 6 then some ld0006
  else if n = 14 then some ld0014
  else if n = 26 then some ld0026
  else none

/-- The point counts supported by the modelled generator. -/
def lebedevSupported : List Nat :=
  [6, 14, 26]

/-- Sum of the quadrature weights of a sphere. -/
def weightSum (l : List (Vec3C × ℚ)) : ℚ :=
  (l.map (fun pw => pw.2)).sum

/-- Weighted sum of the x coordinates of a sphere. -/
def momentX (l : List (Vec3C × ℚ)) : Coord :=
  coordSum (l.map (fun pw => Coord.smul pw.2 pw.1.1))

/-- Weighted sum of the y coordinates of a sphere. -/
def momentY (l : List (Vec3C × ℚ)) : Coord :=
  coordSum (l.map (fun pw => Coord.smul pw.2 pw.1.2.1))

/-- Weighted sum of the z coordinates of a sphere. -/
def momentZ (l : List (Vec3C × ℚ)) : Coord :=
  coordSum (l.map (fun pw => Coord.smul pw.2 pw.1.2.2))

theorem ld0006_norms :
    weightSum ld0006 = 1 ∧ momentX ld0006 = Coord.zero ∧
      momentY ld0006 = Coord.zero ∧ momentZ ld0006 = Coord.zero := by
  refine ⟨?_, ?_, ?_, ?_⟩ <;>
    norm_num [weightSum, momentX, momentY, momentZ, coordSum, ld0006,
      orbitA1, Coord.add, Coord.smul, Coord.zero, cOne, cNegOne,
      Coord.mk.injEq]

theorem ld0014_norms :
    weightSum ld0014 = 1 ∧ momentX ld0014 = Coord.zero ∧
      momentY ld0014 = Coord.zero ∧ momentZ ld0014 = Coord.zero := by
  refine ⟨?_, ?_, ?_, ?_⟩ <;>
    norm_num [weightSum, momentX, momentY, momentZ, coordSum, ld0014,
      orbitA1, orbitA3, Coord.add, Coord.smul, Coord.zero, cOne, cNegOne,
      cSq3t, cSq3tm, Coord.mk.injEq]

theorem ld0026_norms :
    weightSum ld0026 = 1 ∧ momentX ld0026 = Coord.zero ∧
      momentY ld0026 = Coord.zero ∧ momentZ ld0026 = Coord.zero := by
  refine ⟨?_, ?_, ?_, ?_⟩ <;>
    norm_num [weightSum, momentX, momentY, momentZ, coordSum, ld0026,
      orbitA1, orbitA2, orbitA3, Coord.add, Coord.smul, Coord.zero, cOne,
      cNegOne, cSq2h, cSq2hm, cSq3t, cSq3tm, Coord.mk.injEq]

/-- The weights of every sphere produced by the generator sum to exactly
one (shared helper). -/
theorem sphere_weightSum (n : Nat) (pts : List (Vec3C × ℚ))
    (h : lebedev_laikov_sphere n = some pts) : weightSum pts = 1 := by
  unfold lebedev_laikov_sphere at h
  split_ifs at h with h6 h14 h26
  · cases h
    exact ld0006_norms.1
  · cases h
    exact ld0014_norms.1
  · cases h
    exact ld0026_norms.1

/-- C4.  For every angular order supported by the (modelled) generator,
the produced sphere exists and its normalized weights sum exactly to one,
while the weighted sums of each Cartesian coordinate over the produced
unit-sphere points vanish exactly (stronger than the stated floating-point
tolerances). -/
theorem lebedev_sphere_normalized (n : Nat) (hn : n ∈ lebedevSupported) :
    ∃ pts, lebedev_laikov_sphere n = some pts ∧
      weightSum pts = 1 ∧ momentX pts = Coord.zero ∧
      momentY pts = Coord.zero ∧ momentZ pts = Coord.zero := by
  fin_cases hn
  · exact ⟨ld0006, rfl, ld0006_norms⟩
  · exact ⟨ld0014, rfl, ld0014_norms⟩
  · exact ⟨ld0026, rfl, ld0026_norms⟩

/-- Witness for C4 at the 14-point order. -/
theorem lebedev_sphere_normalized_witness :
    (14 ∈ lebedevSupported) ∧
      ∃ pts, lebedev_laikov_sphere 14 = some pts ∧
        weightSum pts = 1 ∧ momentX pts = Coord.zero ∧
        momentY pts = Coord.zero ∧ momentZ pts = Coord.zero :=
  ⟨by simp [lebedevSupported], lebedev_sphere_normalized 14 (by simp [lebedevSupported])⟩

/-- Vector addition of points. -/
def Vec3C.add (u v : Vec3C) : Vec3C :=
  (Coord.add u.1 v.1, Coord.add u.2.1 v.2.1, Coord.add u.2.2 v.2.2)

/-- Scaling of a point by a rational factor. -/
def Vec3C.smul (q : ℚ) (u : Vec3C) : Vec3C :=
  (Coord.smul q u.1, Coord.smul q u.2.1, Coord.smul q u.2.2)

/-- One radial shell of an atomic grid: its points, integration weights
and average weights, in sphere-point order. -/
structure ShellData where
  pts : List Vec3C
  wts : List ℚ
  avw : List ℚ
deriving DecidableEq

instance : Inhabited ShellData :=
  ⟨⟨[], [], []⟩⟩

/-- One iteration of the shell loop of AtomicGrid._init_low (atgrid.py
lines 102-116): fill the slice with the Lebedev-Laikov sphere of the
requested order (recording its weights as the average weights), scale the
points by the shell radius, rotate them by the per-shell rotation when
random rotation is enabled, and set the integration weights to the average
weights multiplied by the radial weight.  The per-shell rotation matrix
drawn from the process RNG is abstracted as the function rot. -/
def mkShell (nll : Nat) (radius rweight : ℚ) (rot : Vec3C → Vec3C)
    (random_rotate : Bool) : Option ShellData :=
  (lebedev_laikov_sphere nll).map (fun sphere =>
    { pts := sphere.map (fun pw =>
        if random_rotate then rot (Vec3C.smul radius pw.1)
        else Vec3C.smul radius pw.1),
      wts := sphere.map (fun pw => pw.2 * rweight),
      avw := sphere.map (fun pw => pw.2) })

/-- The shell loop of _init_low over all spheres, indexing radii and
radial weights in step with the angular orders (running out of radii, or
an unsupported angular order, is a failure, as in the source). -/
def init_shells : List Nat → List ℚ → List ℚ → (Nat → Vec3C → Vec3C) →
    Bool → Nat → Option (List ShellData)
  | [], _, _, _, _, _ => some []
  | nll :: nlls, radius :: radii, rweight :: rweights, rot, rr, i => do
      let sh ← mkShell nll radius rweight (rot i) rr
      let rest ← init_shells nlls radii rweights rot rr (i + 1)
      pure (sh :: rest)
  | _ :: _, _, _, _, _, _ => none

/-- Embedding of AtomicGrid._init_low (atgrid.py lines 96-118): build all
shells, concatenate their data in shell order, and finally translate every
point by the center. -/
def init_low (nlls : List Nat) (radii rweights : List ℚ)
    (rot : Nat → Vec3C → Vec3C) (rr : Bool) (center : Vec3C) :
    Option (List Vec3C × List ℚ × List ℚ) :=
  (init_shells nlls radii rweights rot rr 0).map (fun shells =>
    ((shells.map ShellData.pts).flatten.map (fun p => Vec3C.add p center),
     (shells.map ShellData.wts).flatten,
     (shells.map ShellData.avw).flatten))

/-- The state of an AtomicGrid object: identification data, the selected
radial grid and angular orders, and the point, weight and average-weight
arrays. -/
structure AtomicGridState where
  number : Nat
  pseudo_number : ℚ
  center : Vec3C
  rgrid : RadialGrid
  nlls : List Nat
  random_rotate : Bool
  points : List Vec3C
  weights : List ℚ
  av_weights : List ℚ
deriving DecidableEq

/-- Embedding of AtomicGrid.__init__ (atgrid.py lines 46-94): resolve the
(radial grid, angular orders) pair through the grid specification, then
run _init_low to fill points, weights and average weights. -/
def AtomicGrid.construct (number : Nat) (pseudo_number : ℚ) (center : Vec3C)
    (ms : Members) (rot : Nat → Vec3C → Vec3C) (random_rotate : Bool) :
    Except String AtomicGridState :=
  match AGSpec.get ms number pseudo_number with
  | .error e => .error e
  | .ok (rgrid, nlls) =>
      match init_low nlls rgrid.radii rgrid.rweights rot random_rotate center with
      | none => .error "angular order not supported or radial arrays exhausted"
      | some r =>
          .ok ⟨number, pseudo_number, center, rgrid, nlls, random_rotate,
            r.1, r.2.1, r.2.2⟩

/-- Embedding of AtomicGrid.update_center (atgrid.py lines 190-192): the
stored center is overwritten and _init_low is re-run in place over the
points and weights arrays; when random rotation is enabled fresh per-shell
rotations are drawn (the fresh draws are the argument rot). -/
def AtomicGrid.update_center (g : AtomicGridState) (c : Vec3C)
    (rot : Nat → Vec3C → Vec3C) : Option AtomicGridState :=
  (init_low g.nlls g.rgrid.radii g.rgrid.rweights rot g.random_rotate c).map
    (fun r => { g with center := c, points := r.1, weights := r.2.1,
                       av_weights := r.2.2 })

/-- Inversion of a successful AtomicGrid construction. -/
theorem construct_inv (number : Nat) (pseudo_number : ℚ) (center : Vec3C)
    (ms : Members) (rot : Nat → Vec3C → Vec3C) (rr : Bool)
    (g : AtomicGridState)
    (h : AtomicGrid.construct number pseudo_number center ms rot rr = .ok g) :
    AGSpec.get ms number pseudo_number = .ok (g.rgrid, g.nlls) ∧
    g.number = number ∧ g.pseudo_number = pseudo_number ∧
    g.center = center ∧ g.random_rotate = rr ∧
    init_low g.nlls g.rgrid.radii g.rgrid.rweights rot rr center =
      some (g.points, g.weights, g.av_weights) := by
  unfold AtomicGrid.construct at h
  cases hg : AGSpec.get ms number pseudo_number with
  | error e =>
      rw [hg] at h
      cases h
  | ok p =>
      obtain ⟨rgrid, nlls⟩ := p
      rw [hg] at h
      replace h : (match init_low nlls rgrid.radii rgrid.rweights rot rr center with
          | none => (.error "angular order not supported or radial arrays exhausted" :
              Except String AtomicGridState)
          | some r => .ok ⟨number, pseudo_number, center, rgrid, nlls, rr,
              r.1, r.2.1, r.2.2⟩) = .ok g := h
      cases hi : init_low nlls rgrid.radii rgrid.rweights rot rr center with
      | none =>
          rw [hi] at h
          cases h
      | some r =>
          rw [hi] at h
          cases h
          exact ⟨rfl, rfl, rfl, rfl, rfl, hi⟩

/-- Inversion of a successful Option bind. -/
theorem option_bind_some {α β : Type} (x : Option α) (f : α → Option β)
    (b : β) (h : x.bind f = some b) : ∃ a, x = some a ∧ f a = some b := by
  cases x with
  | none => cases h
  | some a => exact ⟨a, rfl, h⟩

/-- Every sphere produced by the generator has as many points as its
order. -/
theorem sphere_length (n : Nat) (pts : List (Vec3C × ℚ))
    (h : lebedev_laikov_sphere n = some pts) : pts.length = n := by
  unfold lebedev_laikov_sphere at h
  split_ifs at h with h6 h14 h26
  · cases h
    subst h6
    rfl
  · cases h
    subst h14
    rfl
  · cases h
    subst h26
    rfl

/-- Inversion of a successful mkShell. -/
theorem mkShell_inv (nll : Nat) (radius rweight : ℚ) (rot : Vec3C → Vec3C)
    (rr : Bool) (sh : ShellData) (h : mkShell nll radius rweight rot rr = some sh) :
    ∃ sphere, lebedev_laikov_sphere nll = some sphere ∧
      sh.pts = sphere.map (fun pw =>
        if rr then rot (Vec3C.smul radius pw.1) else Vec3C.smul radius pw.1) ∧
      sh.wts = sphere.map (fun pw => pw.2 * rweight) ∧
      sh.avw = sphere.map (fun pw => pw.2) := by
  unfold mkShell at h
  cases hs : lebedev_laikov_sphere nll with
  | none =>
      rw [hs] at h
      cases h
  | some sphere =>
      rw [hs] at h
      cases h
      exact ⟨sphere, rfl, rfl, rfl, rfl⟩

/-- Derived facts about one successful shell: its weight sum is the radial
weight, its average weight sum is one, and all arrays have the angular
order as length. -/
theorem mkShell_sums (nll : Nat) (radius rweight : ℚ) (rot : Vec3C → Vec3C)
    (rr : Bool) (sh : ShellData)
    (h : mkShell nll radius rweight rot rr = some sh) :
    sh.wts.sum = rweight ∧ sh.avw.sum = 1 ∧
      sh.pts.length = nll ∧ sh.wts.length = nll ∧ sh.avw.length = nll := by
  obtain ⟨sphere, hs, hp, hw, ha⟩ := mkShell_inv nll radius rweight rot rr sh h
  have hlen := sphere_length nll sphere hs
  have hws : (sphere.map (fun pw => pw.2)).sum = 1 := sphere_weightSum nll sphere hs
  refine ⟨?_, ?_, ?_, ?_, ?_⟩
  · rw [hw, List.sum_map_mul_right, hws, one_mul]
  · rw [ha, hws]
  · rw [hp, List.length_map, hlen]
  · rw [hw, List.length_map, hlen]
  · rw [ha, List.length_map, hlen]

/-- Per-index description of a successful shell loop: it produces one
shell per angular order, and shell j is the mkShell of the j-th angular
order, radius and radial weight, rotated by the rotation drawn for index
i0 + j. -/
theorem init_shells_get (nlls : List Nat) (radii rweights : List ℚ)
    (rot : Nat → Vec3C → Vec3C) (rr : Bool) (i0 : Nat)
    (shells : List ShellData)
    (h : init_shells nlls radii rweights rot rr i0 = some shells) :
    shells.length = nlls.length ∧
    ∀ j, j < nlls.length →
      mkShell (nlls.getD j 0) (radii.getD j 0) (rweights.getD j 0)
        (rot (i0 + j)) rr = some (shells.getD j default) := by
  induction nlls generalizing radii rweights i0 shells with
  | nil =>
      cases h
      exact ⟨rfl, fun j hj => absurd hj (by simp)⟩
  | cons nll nlls ih =>
      match radii, rweights with
      | [], _ => cases h
      | _ :: _, [] => cases h
      | radius :: radii, rweight :: rweights =>
          unfold init_shells at h
          obtain ⟨sh, hsh, h⟩ := option_bind_some _ _ _ h
          obtain ⟨rest, hrest, h⟩ := option_bind_some _ _ _ h
          cases h
          obtain ⟨ihlen, ihget⟩ := ih radii rweights (i0 + 1) rest hrest
          refine ⟨by simpa using ihlen, ?_⟩
          intro j hj
          cases j with
          | zero => simpa using hsh
          | succ j =>
              have := ihget j (by simpa using hj)
              simpa [Nat.add_assoc, Nat.add_comm 1 j] using this

/-- Flattened totals of a successful shell loop: the total point count is
the sum of the angular orders and the total weight is the sum of the used
radial weights. -/
theorem init_shells_sums (nlls : List Nat) (radii rweights : List ℚ)
    (rot : Nat → Vec3C → Vec3C) (rr : Bool) (i0 : Nat)
    (shells : List ShellData)
    (h : init_shells nlls radii rweights rot rr i0 = some shells) :
    ((shells.map ShellData.pts).flatten).length = nlls.sum ∧
    ((shells.map ShellData.wts).flatten).sum =
      (rweights.take nlls.length).sum := by
  induction nlls generalizing radii rweights i0 shells with
  | nil =>
      cases h
      simp
  | cons nll nlls ih =>
      match radii, rweights with
      | [], _ => cases h
      | _ :: _, [] => cases h
      | radius :: radii, rweight :: rweights =>
          unfold init_shells at h
          obtain ⟨sh, hsh, h⟩ := option_bind_some _ _ _ h
          obtain ⟨rest, hrest, h⟩ := option_bind_some _ _ _ h
          cases h
          obtain ⟨ihlen, ihsum⟩ := ih radii rweights (i0 + 1) rest hrest
          obtain ⟨hwsum, -, hplen, -, -⟩ :=
            mkShell_sums nll radius rweight (rot i0) rr sh hsh
          constructor
          · simp [List.flatten_cons, List.length_append, hplen, ihlen]
          · simp [List.flatten_cons, List.sum_append, hwsum, ihsum,
              List.take_succ_cons, List.sum_cons]

/-- Inversion of a successful init_low. -/
theorem init_low_inv (nlls : List Nat) (radii rweights : List ℚ)
    (rot : Nat → Vec3C → Vec3C) (rr : Bool) (center : Vec3C)
    (t : List Vec3C × List ℚ × List ℚ)
    (h : init_low nlls radii rweights rot rr center = some t) :
    ∃ shells, init_shells nlls radii rweights rot rr 0 = some shells ∧
      t.1 = (shells.map ShellData.pts).flatten.map
        (fun p => Vec3C.add p center) ∧
      t.2.1 = (shells.map ShellData.wts).flatten ∧
      t.2.2 = (shells.map ShellData.avw).flatten := by
  unfold init_low at h
  cases hs : init_shells nlls radii rweights rot rr 0 with
  | none =>
      rw [hs] at h
      cases h
  | some shells =>
      rw [hs] at h
      cases h
      exact ⟨shells, rfl, rfl, rfl, rfl⟩

/-- C5.  For every AtomicGrid successfully constructed from (number,
pseudo_number, center, spec, random_rotate): the grid data is the
shell-ordered concatenation of per-shell data where shell j consists of
the Lebedev-Laikov sphere points of the j-th angular order scaled by the
j-th radius (then rotated by the per-shell rotation when random rotation
is enabled) and finally translated by the center; the shell weights are
the sphere's own normalized weights multiplied by the j-th radial weight;
consequently the grid's total point count equals the sum of the per-shell
angular counts and its total weight equals the sum of the used radial
weights. -/
theorem atomic_grid_structure (number : Nat) (pseudo_number : ℚ)
    (center : Vec3C) (ms : Members) (rot : Nat → Vec3C → Vec3C) (rr : Bool)
    (g : AtomicGridState)
    (h : AtomicGrid.construct number pseudo_number center ms rot rr = .ok g) :
    ∃ shells : List ShellData,
      shells.length = g.nlls.length ∧
      g.points = (shells.map ShellData.pts).flatten.map
        (fun p => Vec3C.add p center) ∧
      g.weights = (shells.map ShellData.wts).flatten ∧
      g.av_weights = (shells.map ShellData.avw).flatten ∧
      (∀ j, j < g.nlls.length → ∃ sphere,
        lebedev_laikov_sphere (g.nlls.getD j 0) = some sphere ∧
        (shells.getD j default).pts = sphere.map (fun pw =>
          if rr then rot j (Vec3C.smul (g.rgrid.radii.getD j 0) pw.1)
          else Vec3C.smul (g.rgrid.radii.getD j 0) pw.1) ∧
        (shells.getD j default).wts = sphere.map (fun pw =>
          pw.2 * g.rgrid.rweights.getD j 0) ∧
        (shells.getD j default).avw = sphere.map (fun pw => pw.2)) ∧
      g.points.length = g.nlls.sum ∧
      g.weights.sum = (g.rgrid.rweights.take g.nlls.length).sum := by
  obtain ⟨-, -, -, -, -, hil⟩ :=
    construct_inv number pseudo_number center ms rot rr g h
  obtain ⟨shells, hs, hp, hw, ha⟩ := init_low_inv _ _ _ _ _ _ _ hil
  have hp2 : g.points = (shells.map ShellData.pts).flatten.map
      (fun p => Vec3C.add p center) := hp
  have hw2 : g.weights = (shells.map ShellData.wts).flatten := hw
  have ha2 : g.av_weights = (shells.map ShellData.avw).flatten := ha
  obtain ⟨hlen, hget⟩ := init_shells_get _ _ _ _ _ _ _ hs
  obtain ⟨hplen, hwsum⟩ := init_shells_sums _ _ _ _ _ _ _ hs
  refine ⟨shells, hlen, hp2, hw2, ha2, ?_, ?_, ?_⟩
  · intro j hj
    have hmk := hget j hj
    rw [Nat.zero_add] at hmk
    obtain ⟨sphere, hsp, hpts, hwts, havw⟩ :=
      mkShell_inv _ _ _ _ _ _ hmk
    exact ⟨sphere, hsp, hpts, hwts, havw⟩
  · rw [hp2, List.length_map, hplen]
  · rw [hw2, hwsum]

/-- Single-shell radial grid used by the atomic grid witnesses. -/
def rgS : RadialGrid :=
  ⟨⟨"s", 1⟩, [1], [1]⟩

/-- Single-record spec table used by the atomic grid witnesses. -/
def msS : Members :=
  [(10, [⟨10, rgS, [6]⟩])]

/-- The origin. -/
def c0 : Vec3C :=
  (Coord.zero, Coord.zero, Coord.zero)

/-- The atomic grid built from msS at the origin without rotation: one
shell of the 6-point sphere at radius 1 with radial weight 1. -/
def gW5 : AtomicGridState :=
  ⟨10, 9, c0, rgS, [6], false, orbitA1,
    List.replicate 6 (1 / 6), List.replicate 6 (1 / 6)⟩

theorem construct_gW5 :
    AtomicGrid.construct 10 9 c0 msS (fun _ p => p) false = .ok gW5 := by
  have hget : AGSpec.get msS 10 9 = .ok (rgS, [6]) := by
    norm_num [AGSpec.get, membersFind, msS, getWalk, List.find?]
  have hinit : init_low [6] rgS.radii rgS.rweights (fun _ p => p) false c0 =
      some (orbitA1, List.replicate 6 (1 / 6), List.replicate 6 (1 / 6)) := by
    norm_num [init_low, init_shells, mkShell, lebedev_laikov_sphere, rgS,
      ld0006, orbitA1, Option.bind, Vec3C.smul, Vec3C.add, Coord.smul,
      Coord.add, Coord.zero, c0, cOne, cNegOne, List.replicate]
  unfold AtomicGrid.construct
  rw [hget]
  show (match init_low [6] rgS.radii rgS.rweights (fun _ p => p) false c0 with
    | none => (.error "angular order not supported or radial arrays exhausted" :
        Except String AtomicGridState)
    | some r => .ok ⟨10, 9, c0, rgS, [6], false, r.1, r.2.1, r.2.2⟩) = .ok gW5
  rw [hinit]
  rfl

/-- Witness for C5: the concrete one-shell grid has 6 points (the sum of
its angular counts) and total weight 1 (the sum of its radial weights). -/
theorem atomic_grid_structure_witness :
    AtomicGrid.construct 10 9 c0 msS (fun _ p => p) false = .ok gW5 ∧
    gW5.points.length = gW5.nlls.sum ∧
    gW5.weights.sum = (gW5.rgrid.rweights.take gW5.nlls.length).sum := by
  obtain ⟨shells, -, -, -, -, -, hlen, hsum⟩ :=
    atomic_grid_structure 10 9 c0 msS (fun _ p => p) false gW5 construct_gW5
  exact ⟨construct_gW5, hlen, hsum⟩

/-- A successful shell has a successful counterpart for any other
rotation source, rotation flag and shell index, with identical weights and
average weights (only the points depend on rotation). -/
theorem mkShell_indep (nll : Nat) (radius rweight : ℚ)
    (rot1 rot2 : Vec3C → Vec3C) (rr1 rr2 : Bool) (sh1 : ShellData)
    (h : mkShell nll radius rweight rot1 rr1 = some sh1) :
    ∃ sh2, mkShell nll radius rweight rot2 rr2 = some sh2 ∧
      sh2.wts = sh1.wts ∧ sh2.avw = sh1.avw := by
  unfold mkShell at h ⊢
  cases hs : lebedev_laikov_sphere nll with
  | none =>
      rw [hs] at h
      cases h
  | some sphere =>
      rw [hs] at h
      cases h
      exact ⟨_, rfl, rfl, rfl⟩

/-- A successful shell loop has a successful counterpart for any other
rotation source, rotation flag and start index, with identical weights
and average weights. -/
theorem init_shells_indep (nlls : List Nat) (radii rweights : List ℚ)
    (rot1 rot2 : Nat → Vec3C → Vec3C) (rr1 rr2 : Bool) (i1 i2 : Nat)
    (s1 : List ShellData)
    (h : init_shells nlls radii rweights rot1 rr1 i1 = some s1) :
    ∃ s2, init_shells nlls radii rweights rot2 rr2 i2 = some s2 ∧
      s2.map ShellData.wts = s1.map ShellData.wts ∧
      s2.map ShellData.avw = s1.map ShellData.avw := by
  induction nlls generalizing radii rweights i1 i2 s1 with
  | nil =>
      cases h
      exact ⟨[], rfl, rfl, rfl⟩
  | cons nll nlls ih =>
      match radii, rweights with
      | [], _ => cases h
      | _ :: _, [] => cases h
      | radius :: radii, rweight :: rweights =>
          unfold init_shells at h ⊢
          obtain ⟨sh, hsh, h⟩ := option_bind_some _ _ _ h
          obtain ⟨rest, hrest, h⟩ := option_bind_some _ _ _ h
          cases h
          obtain ⟨sh2, hsh2, hw2, ha2⟩ :=
            mkShell_indep nll radius rweight (rot1 i1) (rot2 i2) rr1 rr2 sh hsh
          obtain ⟨rest2, hrest2, hwr2, har2⟩ :=
            ih radii rweights (i1 + 1) (i2 + 1) rest hrest
          refine ⟨sh2 :: rest2, ?_, ?_, ?_⟩
          · rw [hsh2]
            simp [Option.bind, hrest2]
          · simp [hw2, hwr2]
          · simp [ha2, har2]

/-- With random rotation disabled, one shell is independent of the drawn
rotation. -/
theorem mkShell_false_rot (nll : Nat) (radius rweight : ℚ)
    (rot1 rot2 : Vec3C → Vec3C) :
    mkShell nll radius rweight rot1 false =
      mkShell nll radius rweight rot2 false := by
  unfold mkShell
  cases lebedev_laikov_sphere nll <;> simp

/-- With random rotation disabled, the whole shell loop is independent of
the rotation source and the starting shell index. -/
theorem init_shells_false_rot (nlls : List Nat) (radii rweights : List ℚ)
    (rot1 rot2 : Nat → Vec3C → Vec3C) (i1 i2 : Nat) :
    init_shells nlls radii rweights rot1 false i1 =
      init_shells nlls radii rweights rot2 false i2 := by
  induction nlls generalizing radii rweights i1 i2 with
  | nil => rfl
  | cons nll nlls ih =>
      match radii, rweights with
      | [], _ => rfl
      | _ :: _, [] => rfl
      | radius :: radii, rweight :: rweights =>
          unfold init_shells
          rw [mkShell_false_rot nll radius rweight (rot1 i1) (rot2 i2),
            ih radii rweights (i1 + 1) (i2 + 1)]

/-- With random rotation disabled, _init_low is a deterministic function
of the shell parameters and the center. -/
theorem init_low_false_rot (nlls : List Nat) (radii rweights : List ℚ)
    (rot1 rot2 : Nat → Vec3C → Vec3C) (c : Vec3C) :
    init_low nlls radii rweights rot1 false c =
      init_low nlls radii rweights rot2 false c := by
  unfold init_low
  rw [init_shells_false_rot nlls radii rweights rot1 rot2 0 0]

/-- C9.  For every successfully constructed AtomicGrid: update_center
always succeeds and never changes the weights or average weights,
regardless of the rotation flag and of the rotations drawn; and when
random rotation is disabled, update_center is deterministic and equivalent
to fresh construction: the updated grid equals, in every field, a newly
constructed AtomicGrid with the same (number, pseudo_number, spec) at the
new center, whatever rotation source that construction is given. -/
theorem update_center_equiv (number : Nat) (pseudo_number : ℚ)
    (center : Vec3C) (ms : Members) (rotA : Nat → Vec3C → Vec3C) (rr : Bool)
    (g : AtomicGridState)
    (h : AtomicGrid.construct number pseudo_number center ms rotA rr = .ok g)
    (c : Vec3C) (rotB rotC : Nat → Vec3C → Vec3C) :
    (∃ g', AtomicGrid.update_center g c rotB = some g' ∧
      g'.weights = g.weights ∧ g'.av_weights = g.av_weights) ∧
    (rr = false →
      ∃ g', AtomicGrid.update_center g c rotB = some g' ∧
        AtomicGrid.construct number pseudo_number c ms rotC false = .ok g') := by
  obtain ⟨hget, hnum, hpn, hcen, hrr, hil⟩ :=
    construct_inv number pseudo_number center ms rotA rr g h
  obtain ⟨shells, hs, hp, hw, ha⟩ := init_low_inv _ _ _ _ _ _ _ hil
  have hw2 : g.weights = (shells.map ShellData.wts).flatten := hw
  have ha2 : g.av_weights = (shells.map ShellData.avw).flatten := ha
  constructor
  · obtain ⟨s2, hs2, hws, has⟩ := init_shells_indep g.nlls g.rgrid.radii
      g.rgrid.rweights rotA rotB rr g.random_rotate 0 0 shells hs
    have hlow : init_low g.nlls g.rgrid.radii g.rgrid.rweights rotB
        g.random_rotate c = some
          ((s2.map ShellData.pts).flatten.map (fun p => Vec3C.add p c),
           (s2.map ShellData.wts).flatten,
           (s2.map ShellData.avw).flatten) := by
      unfold init_low
      rw [hs2]
      rfl
    refine ⟨_, by unfold AtomicGrid.update_center; rw [hlow]; rfl, ?_, ?_⟩
    · show (s2.map ShellData.wts).flatten = g.weights
      rw [hw2, hws]
    · show (s2.map ShellData.avw).flatten = g.av_weights
      rw [ha2, has]
  · intro hfalse
    subst hfalse
    have hsB : init_shells g.nlls g.rgrid.radii g.rgrid.rweights rotB false 0 =
        some shells := by
      rw [init_shells_false_rot g.nlls g.rgrid.radii g.rgrid.rweights
        rotB rotA 0 0]
      exact hs
    have hlowB : init_low g.nlls g.rgrid.radii g.rgrid.rweights rotB false c =
        some ((shells.map ShellData.pts).flatten.map (fun p => Vec3C.add p c),
          (shells.map ShellData.wts).flatten,
          (shells.map ShellData.avw).flatten) := by
      unfold init_low
      rw [hsB]
      rfl
    have hlowC : init_low g.nlls g.rgrid.radii g.rgrid.rweights rotC false c =
        some ((shells.map ShellData.pts).flatten.map (fun p => Vec3C.add p c),
          (shells.map ShellData.wts).flatten,
          (shells.map ShellData.avw).flatten) := by
      rw [init_low_false_rot g.nlls g.rgrid.radii g.rgrid.rweights rotC rotB c]
      exact hlowB
    refine ⟨_, by
      unfold AtomicGrid.update_center
      rw [hrr, hlowB]
      rfl, ?_⟩
    unfold AtomicGrid.construct
    rw [hget]
    show (match init_low g.nlls g.rgrid.radii g.rgrid.rweights rotC false c with
      | none => (.error "angular order not supported or radial arrays exhausted" :
          Except String AtomicGridState)
      | some r => .ok ⟨number, pseudo_number, c, g.rgrid, g.nlls, false,
          r.1, r.2.1, r.2.2⟩) = _
    rw [hlowC]
    simp only [hnum, hpn]

/-- Witness for C9: updating the concrete no-rotation grid gW5 from the
origin to itself reproduces a fresh construction at the origin. -/
theorem update_center_equiv_witness :
    ∃ g', AtomicGrid.update_center gW5 c0 (fun _ p => p) = some g' ∧
      AtomicGrid.construct 10 9 c0 msS (fun _ p => p) false = .ok g' := by
  exact (update_center_equiv 10 9 c0 msS (fun _ p => p) false gW5
    construct_gW5 c0 (fun _ p => p) (fun _ p => p)).2 rfl

/-- One persisted dataset of the tabular grid-spec layout: the per-shell
angular counts as data, with the element number, pseudo number and the
radial transform string encoding as attributes (atgrid.py to_hdf5). -/
structure HDataset where
  number : Nat
  pseudo_number : ℚ
  rtransform : RTransform
  data : List Nat
deriving DecidableEq

/-- A persisted group: named datasets in creation order (h5py iteration is
by name; the reload result is order-insensitive because the spec re-sorts,
so creation order is a faithful simplification). -/
abbrev HGroup : Type :=
  List ((Nat × Int) × HDataset)

/-- The dataset name written by to_hdf5, formatted from the element number
and the pseudo number (the percent-i formatting truncates the rational
pseudo number toward zero). -/
def dsName (number : Nat) (pn : ℚ) : Nat × Int :=
  (number, pn.num / (pn.den : Int))

/-- Creation of a named dataset: fails when the name already exists in the
group (as h5py create_dataset does), else appends. -/
def create_dataset (grp : HGroup) (name : Nat × Int) (ds : HDataset) :
    Except String HGroup :=
  if ((grp.find? (fun p => p.1 = name)).isSome) then
    .error "unable to create dataset, name already exists"
  else .ok (grp ++ [(name, ds)])

/-- Embedding of AtomicGridSpec.to_hdf5 with no selection (atgrid.py lines
302-311): one dataset per (element, record), written in table order. -/
def to_hdf5 (ms : Members) : Except String HGroup :=
  ms.foldlM
    (fun grp entry =>
      entry.2.foldlM
        (fun grp r => create_dataset grp (dsName entry.1 r.pn)
          ⟨entry.1, r.pn, r.rgrid.rtransform, r.nlls⟩)
        grp)
    ([] : HGroup)

/-- The raw member reconstructed from one persisted dataset
(atgrid.py from_hdf5, lines 291-300). -/
def dsToRaw (p : (Nat × Int) × HDataset) : RawMember :=
  ⟨p.2.number, p.2.pseudo_number, RadialGrid.ofRTransform p.2.rtransform,
    .seq p.2.data⟩

/-- Embedding of AtomicGridSpec.from_hdf5 (atgrid.py lines 291-300): read
every dataset back into a raw record and rebuild the spec through the list
initializer. -/
def from_hdf5 (grp : HGroup) : Except String Members :=
  init_members_from_list (grp.map dsToRaw)

/-- The record produced on reload for a stored record: same threshold and
angular counts, radial grid rebuilt from the transform encoding. -/
def mapRec (r : AGRecord) : AGRecord :=
  ⟨r.pn, RadialGrid.ofRTransform r.rgrid.rtransform, r.nlls⟩

/-- The raw member written-and-reread for a stored record. -/
def recordToRaw (n : Nat) (r : AGRecord) : RawMember :=
  ⟨n, r.pn, RadialGrid.ofRTransform r.rgrid.rtransform, .seq r.nlls⟩

/-- The per-element projection compared by the round-trip claim: threshold,
radial-transform string encoding and angular-count array. -/
def projRec (r : AGRecord) : ℚ × RTransform × List Nat :=
  (r.pn, r.rgrid.rtransform, r.nlls)

/-- The keys of a members table. -/
def memKeys (ms : Members) : List Nat :=
  ms.map (fun p => p.1)

/-- A full-length angular count array passes normalization unchanged. -/
theorem normalize_nlls_id (l : List Nat) (size : Nat)
    (h : l.length = size) : normalize_nlls (.seq l) size = .ok l := by
  simp only [normalize_nlls]
  by_cases h1 : l.length = 1
  · obtain ⟨a, rfl⟩ := List.length_eq_one.mp h1
    have hs : size = 1 := by simpa using h.symm
    subst hs
    rw [if_pos h1]
    rfl
  · rw [if_neg h1, if_pos h]

/-- The normalized angular count array always has the radial grid size as
its length. -/
theorem normalize_nlls_length (arg : NllsArg) (size : Nat) (l : List Nat)
    (h : normalize_nlls arg size = .ok l) : l.length = size := by
  match arg with
  | .scalar n =>
      cases h
      simp
  | .seq l0 =>
      simp only [normalize_nlls] at h
      by_cases h1 : l0.length = 1
      · rw [if_pos h1] at h
        cases h
        simp
      · rw [if_neg h1] at h
        by_cases h2 : l0.length = size
        · rw [if_pos h2] at h
          cases h
          exact h2
        · rw [if_neg h2] at h
          cases h

/-- Appending a record for a fresh element number creates a new entry at
the end of the table. -/
theorem membersAppend_fresh (ms : Members) (n : Nat) (r : AGRecord)
    (h : n ∉ memKeys ms) : membersAppend ms n r = ms ++ [(n, [r])] := by
  induction ms with
  | nil => rfl
  | cons p rest ih =>
      obtain ⟨pn, pl⟩ := p
      have hne : pn ≠ n := by
        intro he
        exact h (by simp [memKeys, he])
      have hrest : n ∉ memKeys rest := by
        intro hm
        apply h
        simp only [memKeys, List.map_cons, List.mem_cons]
        exact Or.inr hm
      simp only [membersAppend, List.cons_append]
      rw [if_neg hne, ih hrest]

/-- Appending a record for the element number of the last entry extends
that entry in place. -/
theorem membersAppend_last (acc : Members) (n : Nat) (l0 : List AGRecord)
    (r : AGRecord) (h : n ∉ memKeys acc) :
    membersAppend (acc ++ [(n, l0)]) n r = acc ++ [(n, l0 ++ [r])] := by
  induction acc with
  | nil =>
      simp [membersAppend]
  | cons p rest ih =>
      obtain ⟨pn, pl⟩ := p
      have hne : pn ≠ n := by
        intro he
        exact h (by simp [memKeys, he])
      have hrest : n ∉ memKeys rest := by
        intro hm
        apply h
        simp only [memKeys, List.map_cons, List.mem_cons]
        exact Or.inr hm
      simp only [List.cons_append, membersAppend, List.append_eq]
      rw [if_neg hne, ih hrest]

/-- The grouping fold of _init_members_from_list, from a given
accumulator, written as explicit recursion. -/
def initFold (acc : Members) : List RawMember → Except String Members
  | [] => .ok acc
  | raw :: raws => do
      let nlls ← normalize_nlls raw.nlls raw.rgrid.size
      initFold (membersAppend acc raw.number
        ⟨raw.pseudo_number, raw.rgrid, nlls⟩) raws

/-- The source foldlM of _init_members_from_list computes initFold. -/
theorem foldlM_eq_initFold (raws : List RawMember) (acc : Members) :
    raws.foldlM
      (fun ms raw => do
        let nlls ← normalize_nlls raw.nlls raw.rgrid.size
        pure (membersAppend ms raw.number ⟨raw.pseudo_number, raw.rgrid, nlls⟩))
      acc = initFold acc raws := by
  induction raws generalizing acc with
  | nil => rfl
  | cons raw raws ih =>
      rw [List.foldlM_cons]
      simp only [initFold]
      cases hn : normalize_nlls raw.nlls raw.rgrid.size with
      | error e =>
          simp only [Bind.bind, Except.bind]
      | ok nl =>
          simp only [Bind.bind, Except.bind, pure, Except.pure]
          exact ih _

theorem init_members_from_list_eq (raws : List RawMember) :
    init_members_from_list raws = (do
      let grouped ← initFold [] raws
      pure (grouped.map (fun p => (p.1, List.insertionSort recLE p.2)))) := by
  unfold init_members_from_list
  rw [foldlM_eq_initFold]

theorem initFold_cons_ok (acc : Members) (raw : RawMember)
    (raws : List RawMember) (nl : List Nat)
    (h : normalize_nlls raw.nlls raw.rgrid.size = .ok nl) :
    initFold acc (raw :: raws) =
      initFold (membersAppend acc raw.number
        ⟨raw.pseudo_number, raw.rgrid, nl⟩) raws := by
  simp only [initFold, h]
  simp only [Bind.bind, Except.bind]

theorem initFold_append (acc : Members) (l1 l2 : List RawMember) :
    initFold acc (l1 ++ l2) = (do
      let a ← initFold acc l1
      initFold a l2) := by
  induction l1 generalizing acc with
  | nil =>
      simp only [List.nil_append, initFold]
      simp only [Bind.bind, Except.bind]
  | cons raw l1 ih =>
      rw [List.cons_append]
      simp only [initFold]
      cases hn : normalize_nlls raw.nlls raw.rgrid.size with
      | error e =>
          simp only [Bind.bind, Except.bind]
      | ok nl =>
          simp only [Bind.bind, Except.bind]
          exact ih _

/-- Reading back the block of raw members of one element, starting from a
table whose last entry is that element: each record is renormalized to
itself and appended in place. -/
theorem initFold_block (rs : List AGRecord) (n : Nat) (acc : Members)
    (l0 : List AGRecord)
    (hlen : ∀ r ∈ rs, r.nlls.length = r.rgrid.size) (h : n ∉ memKeys acc) :
    initFold (acc ++ [(n, l0)]) (rs.map (recordToRaw n)) =
      .ok (acc ++ [(n, l0 ++ rs.map mapRec)]) := by
  induction rs generalizing l0 with
  | nil => simp [initFold]
  | cons r rs ih =>
      have hnorm : normalize_nlls (recordToRaw n r).nlls
          (recordToRaw n r).rgrid.size = .ok r.nlls :=
        normalize_nlls_id _ _ (hlen r (by simp))
      rw [List.map_cons, initFold_cons_ok _ _ _ _ hnorm]
      show initFold (membersAppend (acc ++ [(n, l0)]) n (mapRec r))
        (rs.map (recordToRaw n)) = _
      rw [membersAppend_last acc n l0 (mapRec r) h]
      rw [ih (l0 ++ [mapRec r]) (fun r hr => hlen r (by simp [hr]))]
      simp

/-- Reading back the whole block of one element into a table that does not
yet hold that element appends one full entry for it. -/
theorem initFold_head (r : AGRecord) (rs : List AGRecord) (n : Nat)
    (acc : Members)
    (hlen : ∀ x ∈ r :: rs, x.nlls.length = x.rgrid.size)
    (h : n ∉ memKeys acc) :
    initFold acc ((r :: rs).map (recordToRaw n)) =
      .ok (acc ++ [(n, (r :: rs).map mapRec)]) := by
  have hnorm : normalize_nlls (recordToRaw n r).nlls
      (recordToRaw n r).rgrid.size = .ok r.nlls :=
    normalize_nlls_id _ _ (hlen r (by simp))
  rw [List.map_cons, initFold_cons_ok _ _ _ _ hnorm]
  show initFold (membersAppend acc n (mapRec r)) (rs.map (recordToRaw n)) = _
  rw [membersAppend_fresh acc n (mapRec r) h]
  rw [initFold_block rs n acc [mapRec r]
    (fun x hx => hlen x (by simp [hx])) h]
  simp

/-- Reading back the flattened datasets of a well-formed table regroups
them into the same table with each record renormalized and its radial
grid rebuilt from the transform encoding. -/
theorem initFold_flatten (ms : Members) (acc : Members)
    (hnodup : (memKeys ms).Nodup)
    (hdisj : ∀ k ∈ memKeys ms, k ∉ memKeys acc)
    (hwf : ∀ p ∈ ms, p.2 ≠ [] ∧ ∀ r ∈ p.2, r.nlls.length = r.rgrid.size) :
    initFold acc (ms.flatMap (fun p => p.2.map (recordToRaw p.1))) =
      .ok (acc ++ ms.map (fun p => (p.1, p.2.map mapRec))) := by
  induction ms generalizing acc with
  | nil => simp [initFold]
  | cons p rest ih =>
      obtain ⟨n, rs⟩ := p
      obtain ⟨hne, hlens⟩ := hwf (n, rs) (by simp)
      have hn_acc : n ∉ memKeys acc := hdisj n (by simp [memKeys])
      have hn_rest : n ∉ memKeys rest := by
        have := hnodup
        simp only [memKeys, List.map_cons, List.nodup_cons] at this
        exact this.1
      rw [List.flatMap_cons, initFold_append]
      match rs, hne with
      | r :: rs, _ =>
          rw [initFold_head r rs n acc (fun x hx => hlens x hx) hn_acc]
          show initFold (acc ++ [(n, (r :: rs).map mapRec)])
            (rest.flatMap (fun p => p.2.map (recordToRaw p.1))) = _
          rw [ih (acc ++ [(n, (r :: rs).map mapRec)])
            (by
              have := hnodup
              simp only [memKeys, List.map_cons, List.nodup_cons] at this
              exact this.2)
            (by
              intro k hk
              simp only [memKeys, List.map_append, List.map_cons,
                List.map_nil, List.mem_append]
              rintro (hka | hkn)
              · exact hdisj k (by
                  simp only [memKeys, List.map_cons, List.mem_cons]
                  exact Or.inr hk) hka
              · simp only [List.mem_singleton] at hkn
                subst hkn
                exact hn_rest hk)
            (fun q hq => hwf q (by simp [hq]))]
          simp

/-- Inversion of a successful create_dataset: the group grows by exactly
that named dataset at the end. -/
theorem create_dataset_ok (grp : HGroup) (name : Nat × Int) (ds : HDataset)
    (grp2 : HGroup) (h : create_dataset grp name ds = .ok grp2) :
    grp2 = grp ++ [(name, ds)] := by
  unfold create_dataset at h
  split_ifs at h
  cases h
  rfl

/-- Inversion of the inner loop of to_hdf5 over one record list: the group
grows by the datasets of those records in order. -/
theorem to_hdf5_inner (rs : List AGRecord) (n : Nat) (grp0 grp : HGroup)
    (h : rs.foldlM
      (fun g r => create_dataset g (dsName n r.pn)
        ⟨n, r.pn, r.rgrid.rtransform, r.nlls⟩) grp0 = .ok grp) :
    grp = grp0 ++ rs.map
      (fun r => (dsName n r.pn,
        (⟨n, r.pn, r.rgrid.rtransform, r.nlls⟩ : HDataset))) := by
  induction rs generalizing grp0 with
  | nil =>
      cases h
      simp
  | cons r rs ih =>
      rw [List.foldlM_cons] at h
      obtain ⟨g1, hg1, h⟩ := except_bind_ok _ _ _ h
      have := create_dataset_ok _ _ _ _ hg1
      subst this
      rw [ih _ h]
      simp

/-- Inversion of a successful to_hdf5: the group is exactly the flattened
named datasets of the table, in table order. -/
theorem to_hdf5_ok (ms : Members) (grp : HGroup) (h : to_hdf5 ms = .ok grp) :
    grp = ms.flatMap (fun p => p.2.map
      (fun r => (dsName p.1 r.pn,
        (⟨p.1, r.pn, r.rgrid.rtransform, r.nlls⟩ : HDataset)))) := by
  suffices hgen : ∀ (ms : Members) (grp0 grp : HGroup),
      ms.foldlM
        (fun grp entry => entry.2.foldlM
          (fun g r => create_dataset g (dsName entry.1 r.pn)
            ⟨entry.1, r.pn, r.rgrid.rtransform, r.nlls⟩) grp) grp0 = .ok grp →
      grp = grp0 ++ ms.flatMap (fun p => p.2.map
        (fun r => (dsName p.1 r.pn,
          (⟨p.1, r.pn, r.rgrid.rtransform, r.nlls⟩ : HDataset)))) by
    have := hgen ms [] grp h
    simpa using this
  intro ms
  induction ms with
  | nil =>
      intro grp0 grp h
      cases h
      simp
  | cons p rest ih =>
      intro grp0 grp h
      rw [List.foldlM_cons] at h
      obtain ⟨g1, hg1, h⟩ := except_bind_ok _ _ _ h
      have hinner := to_hdf5_inner p.2 p.1 grp0 g1 hg1
      subst hinner
      rw [ih _ _ h, List.flatMap_cons]
      simp

/-- The keys of a table after appending one record: unchanged when the
element already has an entry, extended by the element otherwise. -/
theorem membersAppend_keys (ms : Members) (n : Nat) (r : AGRecord) :
    memKeys (membersAppend ms n r) =
      if n ∈ memKeys ms then memKeys ms else memKeys ms ++ [n] := by
  induction ms with
  | nil => simp [membersAppend, memKeys]
  | cons p rest ih =>
      obtain ⟨pn, pl⟩ := p
      by_cases he : pn = n
      · subst he
        simp [membersAppend, memKeys]
      · simp only [membersAppend, if_neg he]
        have hmem : (n ∈ memKeys ((pn, pl) :: rest)) = (n ∈ memKeys rest) := by
          simp [memKeys, Ne.symm he]
        simp only [memKeys, List.map_cons] at *
        rw [ih]
        by_cases hr : n ∈ memKeys rest
        · simp only [memKeys] at hr
          rw [if_pos hr, if_pos (by simp [hr])]
        · simp only [memKeys] at hr
          rw [if_neg hr, if_neg (by simp [hr, Ne.symm he])]
          simp

/-- Value lists of a table stay nonempty and keep any per-record property
when a record with that property is appended. -/
theorem membersAppend_wf_values (ms : Members) (n : Nat) (r : AGRecord)
    (P : AGRecord → Prop)
    (hP : ∀ p ∈ ms, p.2 ≠ [] ∧ ∀ x ∈ p.2, P x) (hr : P r) :
    ∀ q ∈ membersAppend ms n r, q.2 ≠ [] ∧ ∀ x ∈ q.2, P x := by
  induction ms with
  | nil =>
      intro q hq
      simp only [membersAppend, List.mem_singleton] at hq
      subst hq
      refine ⟨by simp, ?_⟩
      intro x hx
      simp only [List.mem_singleton] at hx
      subst hx
      exact hr
  | cons p rest ih =>
      intro q hq
      obtain ⟨pn, pl⟩ := p
      by_cases he : pn = n
      · subst he
        rw [show membersAppend ((pn, pl) :: rest) pn r =
            (pn, pl ++ [r]) :: rest from by simp [membersAppend]] at hq
        cases List.mem_cons.mp hq with
        | inl h1 =>
            subst h1
            refine ⟨by simp, ?_⟩
            intro x hx
            cases List.mem_append.mp hx with
            | inl h2 => exact (hP (pn, pl) (by simp)).2 x h2
            | inr h2 =>
                rw [List.mem_singleton] at h2
                subst h2
                exact hr
        | inr h1 => exact hP q (List.mem_cons_of_mem _ h1)
      · rw [show membersAppend ((pn, pl) :: rest) n r =
            (pn, pl) :: membersAppend rest n r from by
          simp [membersAppend, he]] at hq
        cases List.mem_cons.mp hq with
        | inl h1 =>
            subst h1
            exact hP (pn, pl) (by simp)
        | inr h1 =>
            exact ih (fun p hp => hP p (List.mem_cons_of_mem _ hp)) q h1

/-- Invariant of the grouping fold: distinct element keys, nonempty value
lists, and normalized angular-count lengths. -/
def GroupWF (ms : Members) : Prop :=
  (memKeys ms).Nodup ∧
    ∀ p ∈ ms, p.2 ≠ [] ∧ ∀ r ∈ p.2, r.nlls.length = r.rgrid.size

theorem membersAppend_GroupWF (ms : Members) (n : Nat) (r : AGRecord)
    (hwf : GroupWF ms) (hr : r.nlls.length = r.rgrid.size) :
    GroupWF (membersAppend ms n r) := by
  constructor
  · rw [membersAppend_keys]
    by_cases h : n ∈ memKeys ms
    · rw [if_pos h]
      exact hwf.1
    · rw [if_neg h, List.nodup_append]
      refine ⟨hwf.1, List.nodup_singleton n, ?_⟩
      intro a ha hb
      rw [List.mem_singleton] at hb
      subst hb
      exact h ha
  · exact membersAppend_wf_values ms n r _ hwf.2 hr

theorem initFold_GroupWF (raws : List RawMember) :
    ∀ acc grouped, initFold acc raws = .ok grouped → GroupWF acc →
      GroupWF grouped := by
  induction raws with
  | nil =>
      intro acc grouped h hacc
      cases h
      exact hacc
  | cons raw raws ih =>
      intro acc grouped h hacc
      simp only [initFold] at h
      cases hn : normalize_nlls raw.nlls raw.rgrid.size with
      | error e =>
          rw [hn] at h
          simp only [Bind.bind, Except.bind] at h
          cases h
      | ok nl =>
          rw [hn] at h
          simp only [Bind.bind, Except.bind] at h
          exact ih _ _ h (membersAppend_GroupWF _ _ _ hacc
            (normalize_nlls_length _ _ _ hn))

/-- Invariant of a constructed AtomicGridSpec table: distinct element
keys, nonempty sorted value lists, and normalized angular-count lengths. -/
def SpecWF (ms : Members) : Prop :=
  (memKeys ms).Nodup ∧
    ∀ p ∈ ms, p.2 ≠ [] ∧ (∀ r ∈ p.2, r.nlls.length = r.rgrid.size) ∧
      List.Sorted recLE p.2

/-- Every table built by _init_members_from_list is well-formed. -/
theorem init_list_SpecWF (raws : List RawMember) (ms : Members)
    (h : init_members_from_list raws = .ok ms) : SpecWF ms := by
  rw [init_members_from_list_eq] at h
  obtain ⟨grouped, hg, hps⟩ := except_bind_ok _ _ _ h
  have hms : ms = grouped.map
      (fun p => (p.1, List.insertionSort recLE p.2)) := by
    simpa [pure, Except.pure] using hps.symm
  have hwf := initFold_GroupWF raws [] grouped hg
    ⟨by simp [memKeys], by simp⟩
  subst hms
  constructor
  · have hk : memKeys (grouped.map
        (fun p => (p.1, List.insertionSort recLE p.2))) = memKeys grouped := by
      simp [memKeys, List.map_map, Function.comp]
    rw [hk]
    exact hwf.1
  · intro p hp
    obtain ⟨q, hq, rfl⟩ := List.mem_map.mp hp
    obtain ⟨hne, hlen⟩ := hwf.2 q hq
    refine ⟨?_, ?_, ?_⟩
    · intro hnil
      apply hne
      have hnil2 : List.insertionSort recLE q.2 = [] := hnil
      have hperm := List.perm_insertionSort recLE q.2
      rw [hnil2] at hperm
      exact hperm.symm.eq_nil
    · intro r hr
      exact hlen r ((List.perm_insertionSort recLE q.2).mem_iff.mp hr)
    · exact List.sorted_insertionSort recLE q.2

/-- C6.  Serializing any AtomicGridSpec built by the list initializer to
the persisted tabular layout and reloading it yields a spec with identical
per-element records: reloading succeeds, the same element numbers are
present, and for each element the reloaded sorted record sequence agrees
with the stored one on (pseudo-number threshold, radial-transform string
encoding, angular-count array). -/
theorem agspec_hdf5_roundtrip (raws : List RawMember) (ms : Members)
    (grp : HGroup) (hms : init_members_from_list raws = .ok ms)
    (hto : to_hdf5 ms = .ok grp) :
    ∃ ms', from_hdf5 grp = .ok ms' ∧
      ∀ number,
        (membersFind ms' number).isSome = (membersFind ms number).isSome ∧
        ((membersFind ms' number).getD []).map projRec =
          ((membersFind ms number).getD []).map projRec := by
  have hwf := init_list_SpecWF raws ms hms
  have hgrp := to_hdf5_ok ms grp hto
  have hraws : grp.map dsToRaw =
      ms.flatMap (fun p => p.2.map (recordToRaw p.1)) := by
    rw [hgrp, List.map_flatMap]
    simp only [List.map_map]
    rfl
  have hfold : initFold [] (grp.map dsToRaw) =
      .ok (ms.map (fun p => (p.1, p.2.map mapRec))) := by
    rw [hraws]
    have := initFold_flatten ms [] hwf.1 (by intro k hk; simp [memKeys])
      (fun p hp => ⟨(hwf.2 p hp).1, (hwf.2 p hp).2.1⟩)
    simpa using this
  have hsorted : ∀ p ∈ ms, List.Sorted recLE (p.2.map mapRec) := by
    intro p hp
    exact List.Pairwise.map mapRec (fun a b hab => hab) (hwf.2 p hp).2.2
  have hfrom : from_hdf5 grp =
      .ok (ms.map (fun p => (p.1, p.2.map mapRec))) := by
    unfold from_hdf5
    rw [init_members_from_list_eq, hfold]
    simp only [Bind.bind, Except.bind, pure, Except.pure]
    congr 1
    rw [List.map_map]
    apply List.map_congr_left
    intro p hp
    simp only [Function.comp]
    congr 1
    exact List.Sorted.insertionSort_eq (hsorted p hp)
  refine ⟨_, hfrom, ?_⟩
  intro number
  have hfind : membersFind (ms.map (fun p => (p.1, p.2.map mapRec))) number =
      (membersFind ms number).map (fun l => l.map mapRec) :=
    membersFind_map (fun l => l.map mapRec) ms number
  constructor
  · rw [hfind]
    cases membersFind ms number <;> simp
  · rw [hfind]
    cases membersFind ms number with
    | none => simp
    | some l =>
        show (l.map mapRec).map projRec = l.map projRec
        rw [List.map_map]
        rfl

/-- The persisted group written for the witness spec msW: two datasets for
element 10, named by (element, truncated threshold). -/
def grpW : HGroup :=
  [((10, 8), ⟨10, 8, ⟨"r", 2⟩, [6, 6]⟩),
   ((10, 10), ⟨10, 10, ⟨"r", 2⟩, [6, 14]⟩)]

/-- Witness for C6 on the concrete spec msW: serialization produces grpW,
reloading succeeds, element 3 stays absent and element 10 reloads with the
same projected record sequence. -/
theorem agspec_hdf5_roundtrip_witness :
    to_hdf5 msW = .ok grpW ∧
    (membersFind ((from_hdf5 grpW).toOption.getD []) 3).isSome =
      (membersFind msW 3).isSome ∧
    ((membersFind ((from_hdf5 grpW).toOption.getD []) 10).getD []).map
        projRec =
      ((membersFind msW 10).getD []).map projRec := by
  have hto : to_hdf5 msW = .ok grpW := by decide
  obtain ⟨ms', hfrom, hprop⟩ :=
    agspec_hdf5_roundtrip rawsW msW grpW (by decide) hto
  refine ⟨hto, ?_, ?_⟩
  · rw [hfrom]
    exact (hprop 3).1
  · rw [hfrom]
    exact (hprop 10).2

instance : Inhabited AtomicGridState :=
  ⟨⟨0, 0, c0, ⟨⟨"", 0⟩, [], []⟩, [], false, [], [], []⟩⟩

/-- The type of the Becke weight helper: given the points of one atom's
sub-range, that atom's local weights, the covalent radii, all centers, the
atom index and the switching order k, it returns the Becke-weighted
molecular weights of the sub-range.  Modelled from the spec:
becke_helper_atom (horton.grid.cext) is absent from src/, so it is carried
as an opaque parameter. -/
def BeckeHelper : Type :=
  List Vec3C → List ℚ → List ℚ → List Vec3C → Nat → Nat → List ℚ

/-- The system data consumed by update_centers: atomic coordinates,
element numbers and effective core charges (system.py). -/
structure MolSystem where
  coordinates : List Vec3C
  numbers : List Nat
  pseudo_numbers : List ℚ

/-- The state of a BeckeMolGrid: element data, centers, the optional list
of kept subgrids, the molecular weights and the switching order. -/
structure BeckeMolGridState where
  numbers : List Nat
  pseudo_numbers : List ℚ
  centers : List Vec3C
  subgrids : Option (List AtomicGridState)
  weights : List ℚ
  k : Nat

/-- Concatenation of the Becke-weighted weights of each atom's contiguous
point sub-range, in atom order (the loop body of update_centers after each
subgrid has been relocated). -/
def beckeWeightsFrom (bh : BeckeHelper) (cov : List ℚ) (cs : List Vec3C)
    (k : Nat) : List AtomicGridState → Nat → List ℚ
  | [], _ => []
  | sg :: rest, i =>
      bh sg.points sg.weights cov cs i k ++
        beckeWeightsFrom bh cov cs k rest (i + 1)

/-- The relocation loop of BeckeMolGrid.update_centers (molgrid.py lines
244-253): relocate each subgrid to its new center (drawing fresh rotations
when enabled) and recompute the Becke-weighted molecular weights of its
contiguous sub-range. -/
def relocate (bh : BeckeHelper) (cov : List ℚ) (cs : List Vec3C) (k : Nat)
    (rots : Nat → Nat → Vec3C → Vec3C) :
    List AtomicGridState → Nat → Option (List AtomicGridState × List ℚ)
  | [], _ => some ([], [])
  | sg :: rest, i => do
      let sg2 ← AtomicGrid.update_center sg (cs.getD i c0) (rots i)
      let r ← relocate bh cov cs k rots rest (i + 1)
      pure (sg2 :: r.1, bh sg2.points sg2.weights cov cs i k ++ r.2)

/-- Embedding of BeckeMolGrid.update_centers (molgrid.py lines 233-253):
fail when the subgrids were not kept, when the subgrid count differs from
the system's atom count, or when the element numbers or pseudo numbers
differ; otherwise overwrite the centers and relocate every subgrid in
place, recomputing the molecular weights per contiguous sub-range.  The
covalent radii looked up in the periodic table are the parameter cov. -/
def update_centers (bh : BeckeHelper) (cov : List ℚ)
    (rots : Nat → Nat → Vec3C → Vec3C) (g : BeckeMolGridState)
    (sys : MolSystem) : Except String BeckeMolGridState :=
  match g.subgrids with
  | none => .error "It is only possible to update the centers of a molecular grid when the subgrids are kept."
  | some sgs =>
      if sgs.length ≠ sys.coordinates.length then
        .error "The number of grid centers and the number of atoms does not match."
      else if g.numbers ≠ sys.numbers ∨ g.pseudo_numbers ≠ sys.pseudo_numbers then
        .error "The elements of the grid and the system do not match."
      else
        match relocate bh cov sys.coordinates g.k rots sgs 0 with
        | none => .error "relocation failed"
        | some r =>
            .ok { g with centers := sys.coordinates,
                         subgrids := some r.1, weights := r.2 }

/-- A subgrid whose shell loop once succeeded can be relocated to any
center with any rotations. -/
theorem update_center_total (sg : AtomicGridState) (c : Vec3C)
    (rot : Nat → Vec3C → Vec3C)
    (h : ∃ rot0 s, init_shells sg.nlls sg.rgrid.radii sg.rgrid.rweights
      rot0 sg.random_rotate 0 = some s) :
    ∃ sg2, AtomicGrid.update_center sg c rot = some sg2 := by
  obtain ⟨rot0, s, hs⟩ := h
  obtain ⟨s2, hs2, -, -⟩ := init_shells_indep sg.nlls sg.rgrid.radii
    sg.rgrid.rweights rot0 rot sg.random_rotate sg.random_rotate 0 0 s hs
  refine ⟨⟨sg.number, sg.pseudo_number, c, sg.rgrid, sg.nlls,
    sg.random_rotate,
    (s2.map ShellData.pts).flatten.map (fun p => Vec3C.add p c),
    (s2.map ShellData.wts).flatten,
    (s2.map ShellData.avw).flatten⟩, ?_⟩
  unfold AtomicGrid.update_center init_low
  rw [hs2]
  rfl

/-- The relocation loop succeeds on well-formed subgrids and produces the
per-atom relocations with the Becke-weighted concatenated weights. -/
theorem relocate_ok (bh : BeckeHelper) (cov : List ℚ) (cs : List Vec3C)
    (k : Nat) (rots : Nat → Nat → Vec3C → Vec3C)
    (sgs : List AtomicGridState) (i : Nat)
    (hwf : ∀ sg ∈ sgs, ∃ rot0 s, init_shells sg.nlls sg.rgrid.radii
      sg.rgrid.rweights rot0 sg.random_rotate 0 = some s) :
    ∃ sgs2, relocate bh cov cs k rots sgs i =
        some (sgs2, beckeWeightsFrom bh cov cs k sgs2 i) ∧
      sgs2.length = sgs.length ∧
      ∀ j, j < sgs.length →
        AtomicGrid.update_center (sgs.getD j default) (cs.getD (i + j) c0)
          (rots (i + j)) = some (sgs2.getD j default) := by
  induction sgs generalizing i with
  | nil =>
      refine ⟨[], rfl, rfl, ?_⟩
      intro j hj
      simp at hj
  | cons sg rest ih =>
      obtain ⟨sg2, hsg2⟩ := update_center_total sg (cs.getD i c0) (rots i)
        (hwf sg (by simp))
      obtain ⟨rest2, hrest2, hlen, hget⟩ :=
        ih (i + 1) (fun x hx => hwf x (by simp [hx]))
      refine ⟨sg2 :: rest2, ?_, by simpa using hlen, ?_⟩
      · unfold relocate
        rw [hsg2]
        simp only [Option.bind, hrest2]
        rfl
      · intro j hj
        cases j with
        | zero => simpa using hsg2
        | succ j =>
            have := hget j (by simpa using hj)
            simpa [Nat.add_assoc, Nat.add_comm 1 j] using this

theorem update_centers_none (bh : BeckeHelper) (cov : List ℚ)
    (rots : Nat → Nat → Vec3C → Vec3C) (g : BeckeMolGridState)
    (sys : MolSystem) (h : g.subgrids = none) :
    update_centers bh cov rots g sys =
      .error "It is only possible to update the centers of a molecular grid when the subgrids are kept." := by
  unfold update_centers
  rw [h]

theorem update_centers_some (bh : BeckeHelper) (cov : List ℚ)
    (rots : Nat → Nat → Vec3C → Vec3C) (g : BeckeMolGridState)
    (sys : MolSystem) (sgs : List AtomicGridState)
    (h : g.subgrids = some sgs) :
    update_centers bh cov rots g sys =
      if sgs.length ≠ sys.coordinates.length then
        .error "The number of grid centers and the number of atoms does not match."
      else if g.numbers ≠ sys.numbers ∨
          g.pseudo_numbers ≠ sys.pseudo_numbers then
        .error "The elements of the grid and the system do not match."
      else
        match relocate bh cov sys.coordinates g.k rots sgs 0 with
        | none => .error "relocation failed"
        | some r =>
            .ok ⟨g.numbers, g.pseudo_numbers, sys.coordinates, some r.1,
              r.2, g.k⟩ := by
  unfold update_centers
  rw [h]

/-- C7.  update_centers fails exactly when a precondition is violated:
when the subgrids were not kept (mode discard), when the number of
subgrids differs from the system's atom count, or when the element
numbers or pseudo numbers of the grid and the system differ; when all
preconditions hold (for structurally well-formed subgrids) it succeeds,
replacing the centers by the system's coordinates, relocating every
atomic subgrid in place (one fresh per-atom rotation source each) and
recomputing the Becke-weighted molecular weights as the concatenation of
each atom's contiguous point sub-range. -/
theorem update_centers_spec (bh : BeckeHelper) (cov : List ℚ)
    (rots : Nat → Nat → Vec3C → Vec3C) (g : BeckeMolGridState)
    (sys : MolSystem)
    (hwf : ∀ sgs, g.subgrids = some sgs → ∀ sg ∈ sgs,
      ∃ rot0 s, init_shells sg.nlls sg.rgrid.radii sg.rgrid.rweights rot0
        sg.random_rotate 0 = some s) :
    ((∃ e, update_centers bh cov rots g sys = .error e) ↔
      (g.subgrids = none ∨
        (∃ sgs, g.subgrids = some sgs ∧
          sgs.length ≠ sys.coordinates.length) ∨
        g.numbers ≠ sys.numbers ∨ g.pseudo_numbers ≠ sys.pseudo_numbers)) ∧
    (∀ sgs, g.subgrids = some sgs →
      sgs.length = sys.coordinates.length →
      g.numbers = sys.numbers → g.pseudo_numbers = sys.pseudo_numbers →
      ∃ sgs2, update_centers bh cov rots g sys =
          .ok ⟨g.numbers, g.pseudo_numbers, sys.coordinates, some sgs2,
            beckeWeightsFrom bh cov sys.coordinates g.k sgs2 0, g.k⟩ ∧
        sgs2.length = sgs.length ∧
        ∀ j, j < sgs.length →
          AtomicGrid.update_center (sgs.getD j default)
            (sys.coordinates.getD j c0) (rots j) =
              some (sgs2.getD j default)) := by
  refine ⟨⟨?_, ?_⟩, ?_⟩
  · intro he
    obtain ⟨e, he⟩ := he
    cases hsub : g.subgrids with
    | none => exact Or.inl rfl
    | some sgs =>
        rw [update_centers_some bh cov rots g sys sgs hsub] at he
        by_cases h1 : sgs.length ≠ sys.coordinates.length
        · exact Or.inr (Or.inl ⟨sgs, rfl, h1⟩)
        · rw [if_neg h1] at he
          by_cases h2 : g.numbers ≠ sys.numbers ∨
              g.pseudo_numbers ≠ sys.pseudo_numbers
          · rcases h2 with h2 | h2
            · exact Or.inr (Or.inr (Or.inl h2))
            · exact Or.inr (Or.inr (Or.inr h2))
          · rw [if_neg h2] at he
            obtain ⟨sgs2, hrel, -, -⟩ := relocate_ok bh cov
              sys.coordinates g.k rots sgs 0 (hwf sgs hsub)
            rw [hrel] at he
            have he2 : Except.ok (⟨g.numbers, g.pseudo_numbers,
                sys.coordinates, some sgs2,
                beckeWeightsFrom bh cov sys.coordinates g.k sgs2 0, g.k⟩ :
                BeckeMolGridState) = Except.error e := he
            cases he2
  · intro hcond
    rcases hcond with hnone | ⟨sgs, hsgs, hlen⟩ | hnum | hpn
    · rw [update_centers_none bh cov rots g sys hnone]
      exact ⟨_, rfl⟩
    · rw [update_centers_some bh cov rots g sys sgs hsgs, if_pos hlen]
      exact ⟨_, rfl⟩
    · cases hsub : g.subgrids with
      | none =>
          rw [update_centers_none bh cov rots g sys hsub]
          exact ⟨_, rfl⟩
      | some sgs =>
          rw [update_centers_some bh cov rots g sys sgs hsub]
          by_cases h1 : sgs.length ≠ sys.coordinates.length
          · rw [if_pos h1]
            exact ⟨_, rfl⟩
          · rw [if_neg h1, if_pos (Or.inl hnum)]
            exact ⟨_, rfl⟩
    · cases hsub : g.subgrids with
      | none =>
          rw [update_centers_none bh cov rots g sys hsub]
          exact ⟨_, rfl⟩
      | some sgs =>
          rw [update_centers_some bh cov rots g sys sgs hsub]
          by_cases h1 : sgs.length ≠ sys.coordinates.length
          · rw [if_pos h1]
            exact ⟨_, rfl⟩
          · rw [if_neg h1, if_pos (Or.inr hpn)]
            exact ⟨_, rfl⟩
  · intro sgs hsub hlen hnum hpn
    obtain ⟨sgs2, hrel, hlen2, hget⟩ := relocate_ok bh cov sys.coordinates
      g.k rots sgs 0 (hwf sgs hsub)
    refine ⟨sgs2, ?_, hlen2, fun j hj => by simpa using hget j hj⟩
    rw [update_centers_some bh cov rots g sys sgs hsub,
      if_neg (by omega), if_neg (by simp [hnum, hpn]), hrel]

/-- The one-atom molecular grid used by the update_centers witness, with
its subgrids kept. -/
def bmgW : BeckeMolGridState :=
  ⟨[10], [9], [c0], some [gW5], [], 3⟩

/-- The same molecular grid with its subgrids discarded. -/
def bmgWdiscard : BeckeMolGridState :=
  ⟨[10], [9], [c0], none, [], 3⟩

/-- The matching one-atom system at the origin. -/
def sysW : MolSystem :=
  ⟨[c0], [10], [9]⟩

/-- Evaluation of init_low on the witness shell data. -/
theorem init_low_W :
    init_low [6] rgS.radii rgS.rweights (fun _ p => p) false c0 =
      some (orbitA1, List.replicate 6 (1 / 6), List.replicate 6 (1 / 6)) := by
  norm_num [init_low, init_shells, mkShell, lebedev_laikov_sphere, rgS,
    ld0006, orbitA1, Option.bind, Vec3C.smul, Vec3C.add, Coord.smul,
    Coord.add, Coord.zero, c0, cOne, cNegOne, List.replicate]

theorem update_center_gW5 :
    AtomicGrid.update_center gW5 c0 (fun _ p => p) = some gW5 := by
  unfold AtomicGrid.update_center
  show (init_low [6] rgS.radii rgS.rweights (fun _ p => p) false c0).map _ =
    some gW5
  rw [init_low_W]
  rfl

theorem init_shells_gW5 :
    ∃ s, init_shells gW5.nlls gW5.rgrid.radii gW5.rgrid.rweights
      (fun _ p => p) gW5.random_rotate 0 = some s := by
  obtain ⟨-, -, -, -, -, hil⟩ := construct_inv 10 9 c0 msS (fun _ p => p)
    false gW5 construct_gW5
  obtain ⟨shells, hs, -, -, -⟩ := init_low_inv _ _ _ _ _ _ _ hil
  exact ⟨shells, hs⟩

/-- Witness for C7: on the one-atom grid, update_centers succeeds when the
subgrids are kept and the system matches, reproducing the relocated
subgrid and its Becke-weighted sub-range, and fails on the same system
when the subgrids were discarded. -/
theorem update_centers_spec_witness :
    update_centers (fun _ wts _ _ _ _ => wts) [1] (fun _ _ p => p) bmgW
        sysW =
      .ok ⟨[10], [9], [c0], some [gW5],
        beckeWeightsFrom (fun _ wts _ _ _ _ => wts) [1] [c0] 3 [gW5] 0, 3⟩ ∧
    (∃ e, update_centers (fun _ wts _ _ _ _ => wts) [1] (fun _ _ p => p)
      bmgWdiscard sysW = .error e) := by
  have hwfW : ∀ sgs, bmgW.subgrids = some sgs → ∀ sg ∈ sgs,
      ∃ rot0 s, init_shells sg.nlls sg.rgrid.radii sg.rgrid.rweights rot0
        sg.random_rotate 0 = some s := by
    intro sgs hsgs sg hsg
    have hsgs2 : sgs = [gW5] := by
      simpa [bmgW] using hsgs.symm
    subst hsgs2
    rw [List.mem_singleton] at hsg
    subst hsg
    obtain ⟨s, hs⟩ := init_shells_gW5
    exact ⟨fun _ p => p, s, hs⟩
  constructor
  · have hrel : relocate (fun _ wts _ _ _ _ => wts) [1] sysW.coordinates
        bmgW.k (fun _ _ p => p) [gW5] 0 =
        some ([gW5], gW5.weights ++ []) := by
      unfold relocate
      rw [show AtomicGrid.update_center gW5 (sysW.coordinates.getD 0 c0)
          (fun x p => p) =
          AtomicGrid.update_center gW5 c0 (fun _ p => p) from rfl,
        update_center_gW5]
      rfl
    rw [update_centers_some (fun _ wts _ _ _ _ => wts) [1] (fun _ _ p => p)
        bmgW sysW [gW5] rfl,
      if_neg (by simp [sysW]), if_neg (by simp [bmgW, sysW]), hrel]
    rfl
  · exact (update_centers_spec (fun _ wts _ _ _ _ => wts) [1]
      (fun _ _ p => p) bmgWdiscard sysW
      (by intro sgs hsgs; cases hsgs)).1.mpr (Or.inl rfl)

/-- Splitting a character list on the colon character, as Python
str.split(':') does. -/
def splitColonAux : List Char → List (List Char)
  | [] => [[]]
  | c :: rest =>
      let r := splitColonAux rest
      if c = ':' then [] :: r
      else match r with
        | [] => [[c]]
        | w :: ws => (c :: w) :: ws

/-- The colon-separated fields of a string (definition.split(':') in the
source; its field count minus one is definition.count(':')). -/
def splitColon (s : String) : List String :=
  (splitColonAux s.toList).map (fun l => String.mk l)

/-- The filesystem environment seen by the string initializer: which paths
exist, and the raw records loaded from a grid file.  Modelled from the
spec: the grid data files and context.get_fn path resolution are outside
src/, so both are abstracted. -/
structure FsEnv where
  fileExists : String → Bool
  loadRaws : String → List RawMember

/-- The path of a named grid file in the data directory. -/
def gridPath (name : String) : String :=
  "grids/" ++ name ++ ".txt"

/-- The six fixed quality names (atgrid.py _simple_names). -/
def simple_names (s : String) : Option String :=
  if s = "coarse" then some "tv-13.7-3"
  else if s = "medium" then some "tv-13.7-4"
  else if s = "fine" then some "tv-13.7-5"
  else if s = "veryfine" then some "tv-13.7-6"
  else if s = "ultrafine" then some "tv-13.7-7"
  else if s = "insane" then some "tv-13.7-8"
  else none

/-- The known radial transform names (atgrid.py _simple_rtfs). -/
def simple_rtfs (s : String) : Option String :=
  if s = "linear" ∨ s = "exp" ∨ s = "power" then some s else none

/-- Simple non-negative decimal literal parser standing in for Python
float conversion (sign and exponent forms are not needed by the claims). -/
def parseRat (s : String) : Option ℚ :=
  match s.splitOn "." with
  | [a] => (a.toNat?).map (fun n => (n : ℚ))
  | [a, b] =>
      match a.toNat?, b.toNat? with
      | some x, some y => some ((x : ℚ) + (y : ℚ) / ((10 : ℚ) ^ b.length))
      | _, _ => none
  | _ => none

/-- Modelled from the spec: the angstrom unit conversion constant
(horton.units, absent from src/), as a rational approximation; its value
is irrelevant to the control-flow claims. -/
def angstrom : ℚ :=
  1889726133921252 / 1000000000000000

/-- Embedding of AtomicGridSpec._init_members_from_string (atgrid.py lines
364-387): try, in order, a local file, a named file in the grid data
directory, a quality name, and the 5-field colon grammar.  An unknown
radial transform name in the colon grammar raises ValueError; a string
matching none of the four categories falls off the end of the function,
leaving the members attribute unset — modelled as .ok none. -/
def init_members_from_string (env : FsEnv) (definition : String) :
    Except String (Option Members) :=
  if env.fileExists definition then
    (init_members_from_list (env.loadRaws definition)).map some
  else if env.fileExists (gridPath definition) then
    (init_members_from_list (env.loadRaws (gridPath definition))).map some
  else
    match simple_names definition with
    | some nm =>
        (init_members_from_list (env.loadRaws (gridPath nm))).map some
    | none =>
        if (splitColon definition).length = 5 then
          match simple_rtfs ((splitColon definition).getD 0 "") with
          | none => .error "Unknown radial grid type"
          | some rname =>
              match parseRat ((splitColon definition).getD 1 ""),
                  parseRat ((splitColon definition).getD 2 ""),
                  ((splitColon definition).getD 3 "").toNat?,
                  ((splitColon definition).getD 4 "").toNat? with
              | some rmin, some rmax, some nrad, some nll =>
                  (init_members_from_tuple
                    (RadialGrid.ofRTransform
                      ⟨rname ++ " " ++ toString (rmin * angstrom) ++ " " ++
                        toString (rmax * angstrom), nrad⟩)
                    (.scalar nll)).map some
              | _, _, _, _ => .error "invalid literal in grid specification"
        else .ok none

/-- The filesystem environment with no grid files at all. -/
def env0 : FsEnv :=
  ⟨fun _ => false, fun _ => []⟩

/-- Counterexample to C8 as stated: the textual definition nonsense
matches no local file, no preset, no quality name and does not have the
5-field colon shape, yet constructing the spec from it does not raise
InvalidSpecification: _init_members_from_string falls through and returns
with the members attribute unset. -/
theorem init_members_from_string_counterexample :
    init_members_from_string env0 "nonsense" = .ok none := by
  decide

/-- C8 (amended).  An angular-count sequence raises ValueError exactly
when its length is neither 1 nor the radial grid size.  A textual
definition that is no existing file, no named grid file, no quality name,
but has the 5-field colon shape with an unknown radial-transform name
raises ValueError; a textual definition matching none of the categories
and lacking the 5-field colon shape does NOT raise: construction
completes with the members table unset. -/
theorem agspec_invalid_specification (l : List Nat) (size : Nat)
    (env : FsEnv) (d : String)
    (hf1 : env.fileExists d = false)
    (hf2 : env.fileExists (gridPath d) = false)
    (hsn : simple_names d = none) :
    ((∃ e, normalize_nlls (.seq l) size = .error e) ↔
      (l.length ≠ 1 ∧ l.length ≠ size)) ∧
    ((splitColon d).length = 5 →
      simple_rtfs ((splitColon d).getD 0 "") = none →
      init_members_from_string env d = .error "Unknown radial grid type") ∧
    ((splitColon d).length ≠ 5 →
      init_members_from_string env d = .ok none) := by
  refine ⟨?_, ?_, ?_⟩
  · constructor
    · intro he
      obtain ⟨e, he⟩ := he
      simp only [normalize_nlls] at he
      by_cases h1 : l.length = 1
      · rw [if_pos h1] at he
        cases he
      · rw [if_neg h1] at he
        by_cases h2 : l.length = size
        · rw [if_pos h2] at he
          cases he
        · exact ⟨h1, h2⟩
    · intro h
      simp only [normalize_nlls]
      rw [if_neg h.1, if_neg h.2]
      exact ⟨_, rfl⟩
  · intro hcolon hrt
    unfold init_members_from_string
    rw [hf1, if_neg (by simp), hf2, if_neg (by simp), hsn, if_pos hcolon,
      hrt]
  · intro hcolon
    unfold init_members_from_string
    rw [hf1, if_neg (by simp), hf2, if_neg (by simp), hsn, if_neg hcolon]

/-- Witness for C8: the sequence of three angular counts on a 4-shell
radial grid raises ValueError, the inline grammar with the unknown
transform name foo raises ValueError, and the plain string nonsense
yields a spec with no members table. -/
theorem agspec_invalid_specification_witness :
    (∃ e, normalize_nlls (.seq [6, 6, 6]) 4 = .error e) ∧
    init_members_from_string env0 "foo:1:2:3:4" =
      .error "Unknown radial grid type" ∧
    init_members_from_string env0 "nonsense" = .ok none := by
  refine ⟨?_, ?_, ?_⟩
  · exact (agspec_invalid_specification [6, 6, 6] 4 env0 "x" rfl rfl
      (by decide)).1.mpr (by decide)
  · exact (agspec_invalid_specification [] 0 env0 "foo:1:2:3:4" rfl rfl
      (by decide)).2.1 (by decide) (by decide)
  · exact (agspec_invalid_specification [] 0 env0 "nonsense" rfl rfl
      (by decide)).2.2 (by decide)

end Horton